import Mathlib

/-!
Verification of the Catty IRI configuration and rebinding utilities
(`scripts/iri-config.py`).

The Python module is shallowly embedded here:

* Python strings are `List Char` (`Str`); `str.replace` is `pyReplace`
  (leftmost, non-overlapping, all occurrences, for a non-empty pattern).
* JSON values are the mutual inductive `Json`/`JsonList`/`JsonMembers`
  (objects keep member order, as Python dicts do); `json.dumps(indent=2,
  ensure_ascii=False)` is `dumpJson`; `json.loads` is `jsonLoads`
  (integers only: no document in this development carries a float).
* The restricted YAML mapping subset is `YVal`/`YFields`;
  `_load_simple_yaml_mapping` is `loadSimpleYamlMapping` and
  `_dump_simple_yaml_mapping` is `dumpSimpleYamlMapping`.
* The registry config is the parsed YAML mapping (`YFields`); methods of
  `IRIConfig` become functions taking the config as first argument, and a
  Python `raise` becomes `Except.error`.
-/

set_option maxRecDepth 40000

instance {ε α : Type} [DecidableEq ε] [DecidableEq α] : DecidableEq (Except ε α) := fun
  | .error e, .error f => decidable_of_iff (e = f) (by simp)
  | .error _, .ok _ => .isFalse (fun h => Except.noConfusion h)
  | .ok _, .error _ => .isFalse (fun h => Except.noConfusion h)
  | .ok a, .ok b => decidable_of_iff (a = b) (by simp)

abbrev Str := List Char

def strOf (s : String) : Str := s.toList

/-- Python `ch.isspace()`: the ASCII whitespace and separator control
characters plus the Unicode space characters. -/
def pyIsSpace (c : Char) : Bool :=
  c = ' ' ∨ c = '\t' ∨ c = '\n' ∨ c = '\r' ∨
  c = '\x0b' ∨ c = '\x0c' ∨
  c = '\x1c' ∨ c = '\x1d' ∨ c = '\x1e' ∨ c = '\x1f' ∨
  c = '\x85' ∨ c = '\xa0' ∨ c = ' ' ∨
  (0x2000 ≤ c.toNat ∧ c.toNat ≤ 0x200a) ∨
  c = ' ' ∨ c = ' ' ∨ c = ' ' ∨ c = ' ' ∨ c = '　'

/-- Python `s.strip()` on the left only. -/
def pyLstrip (s : Str) : Str := s.dropWhile pyIsSpace

/-- Python `s.strip()` on the right only. -/
def pyRstrip (s : Str) : Str := (s.reverse.dropWhile pyIsSpace).reverse

/-- Python `s.strip()`. -/
def pyStrip (s : Str) : Str := pyRstrip (pyLstrip s)

/-- Python `s.rstrip("/")`. -/
def rstripSlashes (s : Str) : Str := (s.reverse.dropWhile (· = '/')).reverse

/-- Python `s.rstrip("\n")`. -/
def rstripNewlines (s : Str) : Str := (s.reverse.dropWhile (· = '\n')).reverse

/-- Python `s.endswith("#")`. -/
def endsWithHash (s : Str) : Bool := s.getLast? = some '#'

/-- Fuel-driven core of Python `s.replace(old, new)`: scan left to right;
at a position where `old` matches, emit `new` and jump over the match,
otherwise emit one character and continue. `s.length` fuel is enough
because every step consumes at least one character of `s`. -/
def pyReplaceAux : Nat → Str → Str → Str → Str
  | 0, _, _, s => s
  | _, _, _, [] => []
  | Nat.succ fuel, old, new, c :: rest =>
    if old ≠ [] ∧ old.isPrefixOf (c :: rest) then
      new ++ pyReplaceAux fuel old new ((c :: rest).drop old.length)
    else
      c :: pyReplaceAux fuel old new rest

/-- Python `s.replace(old, new)` for a non-empty `old` (every pattern this
module replaces is non-empty). -/
def pyReplace (s old new : Str) : Str := pyReplaceAux s.length old new s

/-- `IRIConfig._replace_many`: apply the replacement pairs sequentially. -/
def replaceMany (s : Str) (reps : List (Str × Str)) : Str :=
  reps.foldl (fun out p => pyReplace out p.1 p.2) s

/-- One insertion step of a stable descending-by-source-length sort:
the new pair goes after every pair whose source is at least as long. -/
def insertByLen (p : Str × Str) : List (Str × Str) → List (Str × Str)
  | [] => [p]
  | q :: qs => if q.1.length < p.1.length then p :: q :: qs else q :: insertByLen p qs

/-- Python `replacements.sort(key=lambda p: len(p[0]), reverse=True)`:
a stable sort, descending by the length of the source string. -/
def sortByLenDesc (l : List (Str × Str)) : List (Str × Str) :=
  l.foldl (fun acc p => insertByLen p acc) []

/-- Characters allowed in a URL scheme by `urllib.parse` (ASCII letters,
digits, `+`, `-`, `.`). -/
def schemeChar (c : Char) : Bool := c.isAlpha ∨ c.isDigit ∨ c = '+' ∨ c = '-' ∨ c = '.'

/-- ASCII lowercase, as CPython lowercases a parsed scheme. -/
def lowerStr (s : Str) : Str := s.map Char.toLower

/-- `urlsplit`'s input normalization (CPython 3.11): leading
C0-control-or-space characters are stripped
(`_WHATWG_C0_CONTROL_OR_SPACE`), then every tab, carriage return and
line feed is removed (`_UNSAFE_URL_BYTES_TO_REMOVE`). -/
def urlsplitPre (u : Str) : Str :=
  (u.dropWhile (fun c => c.toNat ≤ 0x20)).filter
    (fun c => ¬(c = '\t' ∨ c = '\r' ∨ c = '\n'))

/-- `url[0].isascii() and url[0].isalpha()`: a scheme is only recognized
when its text begins with an ASCII letter (CPython 3.11.1+). -/
def firstIsAsciiAlpha (s : Str) : Bool :=
  match s.head? with
  | some c => c.toNat < 128 ∧ c.isAlpha
  | none => false

/-- The scheme-splitting step of `urllib.parse.urlsplit`: if the text up to
the first `:` is non-empty, begins with an ASCII letter and is made of
scheme characters, it is the scheme (lowercased) and the rest follows the
colon; otherwise there is no scheme. -/
def splitScheme (u : Str) : Str × Str :=
  let pre := u.takeWhile (· ≠ ':')
  if pre.length < u.length ∧ pre ≠ [] ∧ firstIsAsciiAlpha pre ∧ pre.all schemeChar then
    (lowerStr pre, u.drop (pre.length + 1))
  else
    ([], u)

/-- The netloc text `_splitnetloc` slices out of `urllib.parse.urlsplit`:
present only after `//`, and running up to the next `/`, `?` or `#`. The
validity checks `urlsplit` then runs on this text live in
`netlocChecksE`. -/
def netlocOf (afterScheme : Str) : Str :=
  if afterScheme.take 2 = ['/', '/'] then
    (afterScheme.drop 2).takeWhile (fun c => c ≠ '/' ∧ c ≠ '?' ∧ c ≠ '#')
  else
    []

/-! `urlsplit` does not accept every netloc it slices; its raise paths
(CPython 3.11.6) are part of the embedding. It raises
`ValueError("Invalid IPv6 URL")` on a netloc whose square brackets are
unbalanced; it validates the inside of a balanced bracket pair through
`_check_bracketed_host` (an IPvFuture literal or an address
`ipaddress.ip_address` accepts, a bracketed IPv4 address being rejected);
and `_checknetloc` raises `ValueError` when a non-ASCII netloc changes
under NFKC normalization in a way that introduces one of `/?#@:`.

NFKC normalization is a fixed Unicode table. `nfkcChar` transcribes every
codepoint whose normalization introduces one of the five checked
delimiters — the complete such set in the Unicode data CPython 3.11
ships — and maps every other character to itself. Because `_checknetloc`
raises exactly when the normalized netloc gained one of those delimiters
(the literal `@:#?` having been removed first, and no delimiter arising
from composition across characters), the restricted table decides the
raise condition exactly. -/

def nfkcChar (c : Char) : Str :=
  if c = Char.ofNat 0x2047 then strOf "??"
  else if c = Char.ofNat 0x2048 then strOf "?!"
  else if c = Char.ofNat 0x2049 then strOf "!?"
  else if c = Char.ofNat 0x2100 then strOf "a/c"
  else if c = Char.ofNat 0x2101 then strOf "a/s"
  else if c = Char.ofNat 0x2105 then strOf "c/o"
  else if c = Char.ofNat 0x2106 then strOf "c/u"
  else if c = Char.ofNat 0x2A74 then strOf "::="
  else if c = Char.ofNat 0xFE13 then strOf ":"
  else if c = Char.ofNat 0xFE16 then strOf "?"
  else if c = Char.ofNat 0xFE55 then strOf ":"
  else if c = Char.ofNat 0xFE56 then strOf "?"
  else if c = Char.ofNat 0xFE5F then strOf "#"
  else if c = Char.ofNat 0xFE6B then strOf "@"
  else if c = Char.ofNat 0xFF03 then strOf "#"
  else if c = Char.ofNat 0xFF0F then strOf "/"
  else if c = Char.ofNat 0xFF1A then strOf ":"
  else if c = Char.ofNat 0xFF1F then strOf "?"
  else if c = Char.ofNat 0xFF20 then strOf "@"
  else [c]

def nfkcStr (s : Str) : Str := (s.map nfkcChar).flatten

/-- `urllib.parse._checknetloc`: an empty or all-ASCII netloc passes;
otherwise the netloc with every literal `@`, `:`, `#`, `?` removed must
not change under NFKC normalization in a way that introduces `/`, `?`,
`#`, `@` or `:`. -/
def checkNetloc (netloc : Str) : Except String Unit :=
  if netloc = [] ∨ netloc.all (fun c => c.toNat < 128) then .ok ()
  else
    let n := netloc.filter (fun c => ¬(c = '@' ∨ c = ':' ∨ c = '#' ∨ c = '?'))
    let n2 := nfkcStr n
    if n = n2 then .ok ()
    else if n2.any (fun c => c = '/' ∨ c = '?' ∨ c = '#' ∨ c = '@' ∨ c = ':') then
      .error "netloc contains invalid characters under NFKC normalization"
    else .ok ()

/-- A hexadecimal digit (`ipaddress._HEX_DIGITS`). -/
def hexDigit (c : Char) : Bool :=
  ('0' ≤ c ∧ c ≤ '9') ∨ ('a' ≤ c ∧ c ≤ 'f') ∨ ('A' ≤ c ∧ c ≤ 'F')

/-- The IPvFuture shape `_check_bracketed_host` accepts: the regex
`\Av[a-fA-F0-9]+\..+\Z` (where `.` does not match a line feed). -/
def ipvFutureOk (hostname : Str) : Bool :=
  match hostname with
  | 'v' :: rest =>
    let hexPart := rest.takeWhile hexDigit
    let after := rest.drop hexPart.length
    hexPart ≠ [] ∧ after.take 1 = ['.'] ∧ after.drop 1 ≠ [] ∧
      (after.drop 1).all (fun c => c ≠ '\n')
  | _ => false

/-- Python `s.split(sep)` for a one-character separator (empty pieces are
kept). -/
def splitOnAux (sep : Char) : Str → Str → List Str
  | [], acc => [acc.reverse]
  | c :: cs, acc =>
    if c = sep then acc.reverse :: splitOnAux sep cs []
    else splitOnAux sep cs (c :: acc)

def splitOn (sep : Char) (s : Str) : List Str := splitOnAux sep s []

/-- The value of an all-digit string. -/
def decimalVal (s : Str) : Nat := s.foldl (fun acc c => acc * 10 + (c.toNat - 48)) 0

/-- `ipaddress.IPv4Address._parse_octet` acceptance: a non-empty
all-ASCII-digit string of at most 3 characters, value at most 255, and no
leading zero. -/
def ipv4OctetOk (s : Str) : Bool :=
  s ≠ [] ∧ s.all (fun c => '0' ≤ c ∧ c ≤ '9') ∧ s.length ≤ 3 ∧
    decimalVal s ≤ 255 ∧ (s.take 1 ≠ ['0'] ∨ s = ['0'])

/-- `ipaddress.IPv4Address` acceptance: no `/`, four dot-separated valid
octets. -/
def ipv4Ok (s : Str) : Bool :=
  if s.contains '/' then false
  else
    let octets := splitOn '.' s
    octets.length = 4 ∧ octets.all ipv4OctetOk

/-- `IPv6Address._parse_hextet` acceptance: 1 to 4 hex digits. -/
def hextetOk (s : Str) : Bool := s ≠ [] ∧ s.length ≤ 4 ∧ s.all hexDigit

def idxOfEmpty : List Str → Option Nat
  | [] => none
  | p :: ps => if p = [] then some 0 else (idxOfEmpty ps).map (· + 1)

/-- The colon-group logic of `IPv6Address._ip_int_from_string` (with the
parsed value discarded): at most 9 parts; at most one `::` (an empty
interior part); an empty endpoint only as part of a leading or trailing
`::`; exactly eight groups when there is no `::` and at least one group
skipped otherwise; every group that is parsed must be a valid hextet. -/
def ipv6PartsOk (parts : List Str) : Bool :=
  if 9 < parts.length then false
  else
    let interior := (parts.drop 1).dropLast
    let nEmpty := (interior.filter (fun p : Str => p = [])).length
    if 2 ≤ nEmpty then false
    else if nEmpty = 1 then
      match idxOfEmpty interior with
      | none => false
      | some j =>
        let skipIdx := j + 1
        let headEmpty := parts.head? = some ([] : Str)
        let lastEmpty := parts.getLast? = some ([] : Str)
        let hi := if headEmpty then skipIdx - 1 else skipIdx
        let lo0 := parts.length - skipIdx - 1
        let lo := if lastEmpty then lo0 - 1 else lo0
        if headEmpty ∧ hi ≠ 0 then false
        else if lastEmpty ∧ lo ≠ 0 then false
        else if 8 ≤ hi + lo then false
        else (parts.take hi).all hextetOk ∧ (parts.drop (parts.length - lo)).all hextetOk
    else
      if parts.length ≠ 8 then false
      else if parts.head? = some ([] : Str) then false
      else if parts.getLast? = some ([] : Str) then false
      else parts.all hextetOk

/-- `IPv6Address._ip_int_from_string` acceptance: non-empty, at least
three colon-separated parts, a dotted last part converted through
`IPv4Address` into two hextets, then the group logic. -/
def ipv6CoreOk (s : Str) : Bool :=
  if s = [] then false
  else
    let parts := splitOn ':' s
    if parts.length < 3 then false
    else
      match parts.getLast? with
      | none => false
      | some lastP =>
        if lastP.contains '.' then
          if ipv4Ok lastP then ipv6PartsOk (parts.dropLast ++ [strOf "0", strOf "0"])
          else false
        else ipv6PartsOk parts

/-- `ipaddress.IPv6Address` acceptance: no `/`; an optional `%scope`
(non-empty, without a further `%`) split off at the first `%`. -/
def ipv6Ok (s : Str) : Bool :=
  if s.contains '/' then false
  else if s.contains '%' then
    let addr := s.takeWhile (· ≠ '%')
    let scope := s.drop (addr.length + 1)
    if scope = [] ∨ scope.contains '%' then false
    else ipv6CoreOk addr
  else ipv6CoreOk s

/-- `urllib.parse._check_bracketed_host` (CPython 3.11.4+): an IPvFuture
literal, or an address `ipaddress.ip_address` accepts — which must be
IPv6, an IPv4 address in brackets being rejected. -/
def checkBracketedHost (hostname : Str) : Except String Unit :=
  match hostname with
  | 'v' :: _ =>
    if ipvFutureOk hostname then .ok () else .error "IPvFuture address is invalid"
  | _ =>
    if ipv4Ok hostname then .error "An IPv4 address cannot be in brackets"
    else if ipv6Ok hostname then .ok ()
    else .error "does not appear to be an IPv4 or IPv6 address"

/-- The checks `urlsplit` runs on a sliced netloc, in source order: the
unbalanced-square-bracket check (`raise ValueError("Invalid IPv6 URL")`),
the bracketed-host check on the text between the first `[` and the next
`]`, and `_checknetloc`. -/
def netlocChecksE (netloc : Str) : Except String Str :=
  if (netloc.contains '[' ∧ ¬ netloc.contains ']') ∨
      (netloc.contains ']' ∧ ¬ netloc.contains '[') then
    .error "Invalid IPv6 URL"
  else
    match (if netloc.contains '[' ∧ netloc.contains ']' then
        checkBracketedHost
          ((netloc.drop ((netloc.takeWhile (· ≠ '[')).length + 1)).takeWhile (· ≠ ']'))
      else .ok ()) with
    | .error e => .error e
    | .ok _ =>
      match checkNetloc netloc with
      | .error e => .error e
      | .ok _ => .ok netloc

/-- The netloc step of `urlparse`, raise paths included. -/
def urlsplitNetlocE (afterScheme : Str) : Except String Str :=
  netlocChecksE (netlocOf afterScheme)

/-- `IRIConfig.validate_iri_format`: an empty or whitespace-bearing input
returns `False` before `urlparse` runs; then `urlparse` may raise — its
`ValueError` propagates unhandled, exactly as in the source — and
otherwise the result is `True` exactly when the scheme is `http`/`https`
and the netloc is non-empty. -/
def validateIriFormatE (iri : Str) : Except String Bool :=
  if iri = [] ∨ iri.any pyIsSpace then .ok false
  else
    let parsed := splitScheme (urlsplitPre iri)
    match urlsplitNetlocE parsed.2 with
    | .error e => .error e
    | .ok netloc =>
      if parsed.1 ≠ strOf "http" ∧ parsed.1 ≠ strOf "https" then .ok false
      else if netloc = [] then .ok false
      else .ok true

/-! ### JSON documents

`Json` mirrors the values `json.loads` produces for the documents this
module handles: objects keep member order (Python dicts preserve insertion
order) and numbers are integers (no document in this development carries a
float). -/

mutual
inductive Json where
  | null
  | bool (b : Bool)
  | num (n : Int)
  | str (s : Str)
  | arr (elems : JsonList)
  | obj (members : JsonMembers)
deriving DecidableEq
inductive JsonList where
  | nil
  | cons (hd : Json) (tl : JsonList)
deriving DecidableEq
inductive JsonMembers where
  | nil
  | cons (key : Str) (val : Json) (tl : JsonMembers)
deriving DecidableEq
end

def jitems : List Json → JsonList
  | [] => .nil
  | j :: js => .cons j (jitems js)

def jfields : List (Str × Json) → JsonMembers
  | [] => .nil
  | (k, v) :: kvs => .cons k v (jfields kvs)

/-- Python `node["@id"]`-style lookup (dict keys are unique, first match). -/
def jlookup : JsonMembers → Str → Option Json
  | .nil, _ => none
  | .cons k v tl, key => if k = key then some v else jlookup tl key

/-- Python `d[k] = v`: overwrite in place (keeping the original position)
or append a new member. -/
def memSet : JsonMembers → Str → Json → JsonMembers
  | .nil, k, v => .cons k v .nil
  | .cons k0 v0 tl, k, v => if k0 = k then .cons k0 v tl else .cons k0 v0 (memSet tl k v)

/-! The `rewrite` closure inside `IRIConfig.rebind_iri`: apply the
replacements to every string value anywhere in the tree (keys are left
alone), recursing through arrays and objects. -/
mutual
def rewriteJson (reps : List (Str × Str)) : Json → Json
  | .null => .null
  | .bool b => .bool b
  | .num n => .num n
  | .str s => .str (replaceMany s reps)
  | .arr es => .arr (rewriteList reps es)
  | .obj ms => .obj (rewriteMembers reps ms)
def rewriteList (reps : List (Str × Str)) : JsonList → JsonList
  | .nil => .nil
  | .cons e es => .cons (rewriteJson reps e) (rewriteList reps es)
def rewriteMembers (reps : List (Str × Str)) : JsonMembers → JsonMembers
  | .nil => .nil
  | .cons k v ms => .cons k (rewriteJson reps v) (rewriteMembers reps ms)
end

/-! ### `json.dumps(..., indent=2, ensure_ascii=False)` -/

def lbraceChar : Char := Char.ofNat 123
def rbraceChar : Char := Char.ofNat 125

def hexDigitChar (n : Nat) : Char :=
  if n < 10 then Char.ofNat (48 + n) else Char.ofNat (87 + n)

/-- JSON string escaping as `json.dumps` with `ensure_ascii=False` does it:
quote and backslash escaped, named control escapes, `\u00XX` for the other
control characters, everything else verbatim. -/
def jsonEscapeChar (c : Char) : Str :=
  if c = '"' then ['\\', '"']
  else if c = '\\' then ['\\', '\\']
  else if c = '\n' then ['\\', 'n']
  else if c = '\r' then ['\\', 'r']
  else if c = '\t' then ['\\', 't']
  else if c = '\x08' then ['\\', 'b']
  else if c = '\x0c' then ['\\', 'f']
  else if c.toNat < 32 then
    ['\\', 'u', '0', '0', hexDigitChar (c.toNat / 16), hexDigitChar (c.toNat % 16)]
  else [c]

def jsonQuote (s : Str) : Str := '"' :: (s.map jsonEscapeChar).flatten ++ ['"']

def natDigitsAux : Nat → Nat → Str
  | 0, _ => []
  | fuel + 1, n =>
    if n < 10 then [Char.ofNat (48 + n)]
    else natDigitsAux fuel (n / 10) ++ [Char.ofNat (48 + n % 10)]

def natDigits (n : Nat) : Str := natDigitsAux (n + 1) n

def intDigits : Int → Str
  | .ofNat n => natDigits n
  | .negSucc m => '-' :: natDigits (m + 1)

def padOf (level : Nat) : Str := List.replicate (2 * level) ' '

/-! `json.dumps(value, indent=2, ensure_ascii=False)` at a nesting level:
empty containers stay inline, non-empty ones put each child on its own
line indented one level deeper, with `",\n"` between children and `": "`
between a key and its value. -/
mutual
def dumpJson : Json → Nat → Str
  | .null, _ => strOf "null"
  | .bool true, _ => strOf "true"
  | .bool false, _ => strOf "false"
  | .num n, _ => intDigits n
  | .str s, _ => jsonQuote s
  | .arr .nil, _ => ['[', ']']
  | .arr (.cons e es), level =>
    '[' :: '\n' :: (dumpListItems (.cons e es) (level + 1) ++ '\n' :: padOf level ++ [']'])
  | .obj .nil, _ => [lbraceChar, rbraceChar]
  | .obj (.cons k v ms), level =>
    lbraceChar :: '\n' ::
      (dumpMemberItems (.cons k v ms) (level + 1) ++ '\n' :: padOf level ++ [rbraceChar])
def dumpListItems : JsonList → Nat → Str
  | .nil, _ => []
  | .cons e .nil, level => padOf level ++ dumpJson e level
  | .cons e (.cons e2 es), level =>
    padOf level ++ dumpJson e level ++ ',' :: '\n' :: dumpListItems (.cons e2 es) level
def dumpMemberItems : JsonMembers → Nat → Str
  | .nil, _ => []
  | .cons k v .nil, level => padOf level ++ jsonQuote k ++ ':' :: ' ' :: dumpJson v level
  | .cons k v (.cons k2 v2 ms), level =>
    padOf level ++ jsonQuote k ++ ':' :: ' ' :: dumpJson v level ++
      ',' :: '\n' :: dumpMemberItems (.cons k2 v2 ms) level
end

/-! ### `json.loads`

A recursive-descent reading of the documents `rebind_iri` and
`validate_no_fabricated_iris` accept. It is strict in the way Python's
decoder is: only `space`/`tab`/`newline`/`carriage return` count as
whitespace, strings reject raw control characters, containers reject
trailing commas, and trailing non-whitespace is an error. Numbers are
restricted to integers (a fraction or exponent is rejected rather than
read as a float, which no document in this development carries), and a
`\uXXXX` escape is read as a single scalar value. -/

def jsonWsChar (c : Char) : Bool := c = ' ' ∨ c = '\t' ∨ c = '\n' ∨ c = '\r'

def jsonSkipWs (s : Str) : Str := s.dropWhile jsonWsChar

def hexVal (c : Char) : Option Nat :=
  if '0' ≤ c ∧ c ≤ '9' then some (c.toNat - 48)
  else if 'a' ≤ c ∧ c ≤ 'f' then some (c.toNat - 87)
  else if 'A' ≤ c ∧ c ≤ 'F' then some (c.toNat - 55)
  else none

/-- Body of a JSON string, after the opening quote. -/
def parseStringBody : Nat → Str → Except String (Str × Str)
  | 0, _ => .error "string fuel exhausted"
  | _ + 1, [] => .error "Unterminated string"
  | fuel + 1, c :: rest =>
    if c = '"' then .ok ([], rest)
    else if c = '\\' then
      match rest with
      | [] => .error "Unterminated string"
      | e :: rest2 =>
        let withChar (d : Char) (r : Str) : Except String (Str × Str) :=
          match parseStringBody fuel r with
          | .ok (tl, r2) => .ok (d :: tl, r2)
          | .error msg => .error msg
        if e = '"' then withChar '"' rest2
        else if e = '\\' then withChar '\\' rest2
        else if e = '/' then withChar '/' rest2
        else if e = 'b' then withChar '\x08' rest2
        else if e = 'f' then withChar '\x0c' rest2
        else if e = 'n' then withChar '\n' rest2
        else if e = 'r' then withChar '\r' rest2
        else if e = 't' then withChar '\t' rest2
        else if e = 'u' then
          match rest2 with
          | h1 :: h2 :: h3 :: h4 :: rest3 =>
            match hexVal h1, hexVal h2, hexVal h3, hexVal h4 with
            | some a, some b, some cc, some d =>
              withChar (Char.ofNat (((a * 16 + b) * 16 + cc) * 16 + d)) rest3
            | _, _, _, _ => .error "Invalid hex escape"
          | _ => .error "Invalid hex escape"
        else .error "Invalid escape"
    else if c.toNat < 32 then .error "Invalid control character"
    else
      match parseStringBody fuel rest with
      | .ok (tl, r2) => .ok (c :: tl, r2)
      | .error msg => .error msg

def spanDigits (s : Str) : Str × Str := (s.takeWhile Char.isDigit, s.dropWhile Char.isDigit)

def digitsToNat (ds : Str) : Nat := ds.foldl (fun acc c => acc * 10 + (c.toNat - 48)) 0

/-- A JSON integer token: optional minus, then `0` alone or a non-zero
leading digit run; a following `.`/`e`/`E` (a float) is rejected. -/
def parseIntTok (s : Str) : Except String (Int × Str) :=
  let (negative, body) := match s with
    | '-' :: tl => (true, tl)
    | _ => (false, s)
  match body with
  | [] => .error "Expecting value"
  | d :: _ =>
    if ¬ d.isDigit then .error "Expecting value"
    else
      let (digits, rest) :=
        if d = '0' then ([d], body.drop 1) else spanDigits body
      match rest with
      | '.' :: _ => .error "float literals are outside this model"
      | 'e' :: _ => .error "float literals are outside this model"
      | 'E' :: _ => .error "float literals are outside this model"
      | _ =>
        let n : Int := Int.ofNat (digitsToNat digits)
        .ok (if negative then -n else n, rest)

/-- Fold parsed members into an object as Python builds its dict:
later duplicate keys overwrite in place. -/
def membersToDict : JsonMembers → JsonMembers → JsonMembers
  | acc, .nil => acc
  | acc, .cons k v tl => membersToDict (memSet acc k v) tl

mutual
def parseJsonValue : Nat → Str → Except String (Json × Str)
  | 0, _ => .error "value fuel exhausted"
  | fuel + 1, s =>
    match s with
    | [] => .error "Expecting value"
    | c :: rest =>
      if c = lbraceChar then parseObjBody fuel (jsonSkipWs rest)
      else if c = '[' then parseArrBody fuel (jsonSkipWs rest)
      else if c = '"' then
        match parseStringBody (rest.length + 1) rest with
        | .ok (body, r) => .ok (.str body, r)
        | .error msg => .error msg
      else if c = 't' ∧ rest.take 3 = strOf "rue" then .ok (.bool true, rest.drop 3)
      else if c = 'f' ∧ rest.take 4 = strOf "alse" then .ok (.bool false, rest.drop 4)
      else if c = 'n' ∧ rest.take 3 = strOf "ull" then .ok (.null, rest.drop 3)
      else if c = '-' ∨ c.isDigit then
        match parseIntTok (c :: rest) with
        | .ok (n, r) => .ok (.num n, r)
        | .error msg => .error msg
      else .error "Expecting value"
def parseArrBody : Nat → Str → Except String (Json × Str)
  | 0, _ => .error "value fuel exhausted"
  | fuel + 1, s =>
    match s with
    | ']' :: r => .ok (.arr .nil, r)
    | _ =>
      match parseArrItems fuel s with
      | .ok (items, r) => .ok (.arr items, r)
      | .error msg => .error msg
def parseArrItems : Nat → Str → Except String (JsonList × Str)
  | 0, _ => .error "value fuel exhausted"
  | fuel + 1, s =>
    match parseJsonValue fuel s with
    | .error msg => .error msg
    | .ok (v, r) =>
      match jsonSkipWs r with
      | ',' :: r2 =>
        match parseArrItems fuel (jsonSkipWs r2) with
        | .ok (tl, r3) => .ok (.cons v tl, r3)
        | .error msg => .error msg
      | ']' :: r2 => .ok (.cons v .nil, r2)
      | _ => .error "Expecting comma delimiter"
def parseObjBody : Nat → Str → Except String (Json × Str)
  | 0, _ => .error "value fuel exhausted"
  | fuel + 1, s =>
    match s with
    | c :: r =>
      if c = rbraceChar then .ok (.obj .nil, r)
      else
        match parseObjItems fuel s with
        | .ok (pairs, r2) => .ok (.obj (membersToDict .nil pairs), r2)
        | .error msg => .error msg
    | [] => .error "Expecting property name"
def parseObjItems : Nat → Str → Except String (JsonMembers × Str)
  | 0, _ => .error "value fuel exhausted"
  | fuel + 1, s =>
    match s with
    | '"' :: r =>
      match parseStringBody (r.length + 1) r with
      | .error msg => .error msg
      | .ok (k, r1) =>
        match jsonSkipWs r1 with
        | ':' :: r3 =>
          match parseJsonValue fuel (jsonSkipWs r3) with
          | .error msg => .error msg
          | .ok (v, r4) =>
            match jsonSkipWs r4 with
            | ',' :: r6 =>
              match parseObjItems fuel (jsonSkipWs r6) with
              | .ok (tl, r7) => .ok (.cons k v tl, r7)
              | .error msg => .error msg
            | c2 :: r6 =>
              if c2 = rbraceChar then .ok (.cons k v .nil, r6)
              else .error "Expecting comma delimiter"
            | [] => .error "Expecting comma delimiter"
        | _ => .error "Expecting colon delimiter"
    | _ => .error "Expecting property name"
end

/-- `json.loads`: skip leading whitespace, read one value, and require
only whitespace to remain. -/
def jsonLoads (content : Str) : Except String Json :=
  let s := jsonSkipWs content
  match parseJsonValue (2 * s.length + 4) s with
  | .error msg => .error msg
  | .ok (v, r) => if jsonSkipWs r = [] then .ok v else .error "Extra data"

/-! ### The restricted YAML mapping subset

`YVal`/`YFields` is the value shape `_load_simple_yaml_mapping` builds:
nested mappings of scalar string keys to scalar strings or sub-mappings,
in insertion order. -/

mutual
inductive YVal where
  | scalar (s : Str)
  | map (entries : YFields)
deriving DecidableEq
inductive YFields where
  | nil
  | cons (key : Str) (val : YVal) (tl : YFields)
deriving DecidableEq
end

def yfields : List (Str × YVal) → YFields
  | [] => .nil
  | (k, v) :: kvs => .cons k v (yfields kvs)

def ylookup : YFields → Str → Option YVal
  | .nil, _ => none
  | .cons k v tl, key => if k = key then some v else ylookup tl key

/-- Python `d[k] = v` on the parsed mapping: overwrite in place (keeping
the original position) or append. -/
def ydictSet : YFields → Str → YVal → YFields
  | .nil, k, v => .cons k v .nil
  | .cons k0 v0 tl, k, v => if k0 = k then .cons k0 v tl else .cons k0 v0 (ydictSet tl k v)

def yfieldsLength : YFields → Nat
  | .nil => 0
  | .cons _ _ tl => yfieldsLength tl + 1

/-- A character at which Python `str.splitlines` breaks. -/
def pyLineBreakChar (c : Char) : Bool :=
  c = '\n' ∨ c = '\r' ∨ c = '\x0b' ∨ c = '\x0c' ∨
  c = '\x1c' ∨ c = '\x1d' ∨ c = '\x1e' ∨ c = '\x85' ∨
  c = ' ' ∨ c = ' '

/-- Python `text.splitlines()`: `\r\n` counts as one break, a terminating
break yields no trailing empty line. -/
def splitlinesAux : Str → Str → List Str
  | [], acc => if acc = [] then [] else [acc.reverse]
  | '\r' :: '\n' :: rest, acc => acc.reverse :: splitlinesAux rest []
  | c :: rest, acc =>
    if pyLineBreakChar c then acc.reverse :: splitlinesAux rest []
    else splitlinesAux rest (c :: acc)

def pySplitlines (s : Str) : List Str := splitlinesAux s []

/-- `_yaml_strip_quotes`: strip the value, then strip one layer of matching
single or double quotes (no escape processing). -/
def squoteChar : Char := Char.ofNat 39

def yamlStripQuotes (value : Str) : Str :=
  let v := pyStrip value
  match v with
  | [] => []
  | c :: _ =>
    if (c = '"' ∧ v.getLast? = some '"') ∨ (c = squoteChar ∧ v.getLast? = some squoteChar) then
      (v.drop 1).dropLast
    else v

/-- `len(line) - len(line.lstrip(" "))`: leading spaces only. -/
def leadingSpaces (line : Str) : Nat := (line.takeWhile (· = ' ')).length

/-- `line.lstrip().split(":", 1)`: the key before the first colon and the
rest after it (a colon is known to be present when this is called). -/
def splitFirstColon (s : Str) : Str × Str :=
  (s.takeWhile (· ≠ ':'), (s.dropWhile (· ≠ ':')).drop 1)

/-- One open nested mapping of the parser: the indentation recorded for
its block, the key it will occupy in its parent, and its entries so far.

The Python parser keeps a stack of references to dicts being mutated in
place; here the root entries and the open frames (innermost first) are
explicit, and a frame is folded into its parent when it is closed. -/
structure YFrame where
  indent : Nat
  key : Str
  entries : YFields
deriving DecidableEq

structure YState where
  rootEntries : YFields
  frames : List YFrame
deriving DecidableEq

def initYState : YState := ⟨.nil, []⟩

/-- Fold the innermost open frame into its parent (Python's `stack.pop()`:
the popped dict was already reachable from its parent; here the deferred
insertion happens now, at the position Python's placeholder had). -/
def closeFrame (st : YState) : YState :=
  match st.frames with
  | [] => st
  | f :: [] => ⟨ydictSet st.rootEntries f.key (.map f.entries), []⟩
  | f :: g :: rest =>
    ⟨st.rootEntries, ⟨g.indent, g.key, ydictSet g.entries f.key (.map f.entries)⟩ :: rest⟩

/-- `while stack and indent < stack[-1][0]: stack.pop()`. The root of the
Python stack carries indent `0` and is never popped (the loop guard would
need `indent < 0`), so the subsequent `if not stack` error is unreachable
and the root needs no counterpart among the frames here. -/
def popFrames : Nat → Nat → YState → YState
  | 0, _, st => st
  | fuel + 1, indent, st =>
    match st.frames with
    | [] => st
    | f :: _ => if indent < f.indent then popFrames fuel indent (closeFrame st) else st

def popToIndent (indent : Nat) (st : YState) : YState :=
  popFrames st.frames.length indent st

/-- Set a key in the current (innermost) mapping. -/
def setCurrent (st : YState) (k : Str) (v : YVal) : YState :=
  match st.frames with
  | [] => ⟨ydictSet st.rootEntries k v, []⟩
  | f :: rest => ⟨st.rootEntries, ⟨f.indent, f.key, ydictSet f.entries k v⟩ :: rest⟩

/-- Open a nested mapping under key `k` at block indent `indent + 2`. -/
def pushFrame (st : YState) (indent : Nat) (k : Str) : YState :=
  ⟨st.rootEntries, ⟨indent + 2, k, .nil⟩ :: st.frames⟩

/-- The body of `_load_simple_yaml_mapping`'s loop for one raw line. -/
def processYamlLine (st : YState) (rawLine : Str) : Except String YState :=
  let line := rstripNewlines rawLine
  if pyStrip line = [] ∨ (pyLstrip line).take 1 = ['#'] then .ok st
  else
    let indent := leadingSpaces line
    if indent % 2 ≠ 0 then .error "Unsupported YAML indentation expected 2 spaces"
    else
      let st := popToIndent indent st
      if ¬ line.contains ':' then .error "Malformed YAML line missing colon"
      else
        let parts := splitFirstColon (pyLstrip line)
        let key := pyStrip parts.1
        let value := pyStrip parts.2
        if value = [] then .ok (pushFrame st indent key)
        else .ok (setCurrent st key (.scalar (yamlStripQuotes value)))

def processYamlLines : YState → List Str → Except String YState
  | st, [] => .ok st
  | st, l :: ls =>
    match processYamlLine st l with
    | .error e => .error e
    | .ok st2 => processYamlLines st2 ls

/-- Close every frame still open at end of input. -/
def closeAll : Nat → YState → YFields
  | 0, st => st.rootEntries
  | fuel + 1, st =>
    match st.frames with
    | [] => st.rootEntries
    | _ => closeAll fuel (closeFrame st)

/-- `_load_simple_yaml_mapping`. -/
def loadSimpleYamlMapping (text : Str) : Except String YFields :=
  match processYamlLines initYState (pySplitlines text) with
  | .error e => .error e
  | .ok st => .ok (closeAll st.frames.length st)

/-! ### `_dump_simple_yaml_mapping` -/

/-- Quote a scalar that contains whitespace, `:` or `#`, escaping embedded
double quotes with a backslash (`s.replace('"', '\\"')`). -/
def yamlScalarRepr (s : Str) : Str :=
  if s.any pyIsSpace ∨ s.contains ':' ∨ s.contains '#' then
    '"' :: pyReplace s ['"'] ['\\', '"'] ++ ['"']
  else s

def joinNl : List Str → Str
  | [] => []
  | [l] => l
  | l :: l2 :: ls => l ++ '\n' :: joinNl (l2 :: ls)

/-- The `lines` list of `_dump_simple_yaml_mapping`: a nested mapping
contributes its header line and then its whole recursive dump as one
further entry (which is empty for an empty sub-mapping). -/
def yamlLines : YFields → Nat → List Str
  | .nil, _ => []
  | .cons k (.scalar s) tl, ind =>
    (List.replicate ind ' ' ++ k ++ ':' :: ' ' :: yamlScalarRepr s) :: yamlLines tl ind
  | .cons k (.map m) tl, ind =>
    (List.replicate ind ' ' ++ k ++ [':']) :: joinNl (yamlLines m (ind + 2)) :: yamlLines tl ind

/-- `_dump_simple_yaml_mapping`. -/
def dumpSimpleYamlMapping (data : YFields) (ind : Nat) : Str :=
  joinNl (yamlLines data ind)

/-! ### The registry config

An `IRIConfig` holds the parsed YAML mapping; `_load_config` guarantees it
contains an `ontologies` mapping, so the `raise` inside the `_ontologies`
property is unreachable on a loaded instance. Functions that Python routes
through that property on a loaded config use the total `ontologiesD`;
`register_ontology` and `_get_ontology_entry`, whose errors a caller can
see, go through the `Except`-valued `ontologiesOf`. -/

def ontologiesOf (cfg : YFields) : Except String YFields :=
  match ylookup cfg (strOf "ontologies") with
  | some (.map m) => .ok m
  | _ => .error "Config is missing required ontologies mapping"

def ontologiesD (cfg : YFields) : YFields :=
  match ylookup cfg (strOf "ontologies") with
  | some (.map m) => m
  | _ => .nil

def getScalarEntry (entry : YFields) (key : String) : Option Str :=
  match ylookup entry (strOf key) with
  | some (.scalar s) => some s
  | _ => none

/-- `_get_ontology_entry`. -/
def getOntologyEntry (cfg : YFields) (name : Str) : Except String YFields :=
  match ontologiesOf cfg with
  | .error e => .error e
  | .ok onts =>
    match ylookup onts name with
    | none => .error "Unknown ontology"
    | some (.map entry) => .ok entry
    | some (.scalar _) => .error "Ontology entry must be a mapping"

/-- `get_localhost_iri`. -/
def getLocalhostIri (cfg : YFields) (name : Str) : Except String Str :=
  match getOntologyEntry cfg name with
  | .error e => .error e
  | .ok entry =>
    match getScalarEntry entry "localhost_iri" with
    | some s => .ok s
    | none => .error "missing localhost_iri"

/-- `get_production_iri`. -/
def getProductionIri (cfg : YFields) (name : Str) : Except String Str :=
  match getOntologyEntry cfg name with
  | .error e => .error e
  | .ok entry =>
    match getScalarEntry entry "production_iri" with
    | some s => .ok s
    | none => .error "missing production_iri"

/-- `_registered_bases`: every `localhost_iri` and `production_iri` string
in the table. Python collects them into a set used only for membership and
existential prefix tests, so a list is an equivalent carrier. -/
def basesOfOntologies : YFields → List Str
  | .nil => []
  | .cons _ (.map entry) tl =>
    (match getScalarEntry entry "localhost_iri" with
      | some s => [s]
      | none => []) ++
    (match getScalarEntry entry "production_iri" with
      | some s => [s]
      | none => []) ++ basesOfOntologies tl
  | .cons _ (.scalar _) tl => basesOfOntologies tl

def registeredBases (cfg : YFields) : List Str := basesOfOntologies (ontologiesD cfg)

/-- `_is_registered_base`. -/
def isRegisteredBase (cfg : YFields) (baseIri : Str) : Bool :=
  (registeredBases cfg).contains baseIri

/-- `_registered_prefixes`. -/
def registeredPrefixes : List Str :=
  [strOf "catty", strOf "lao", strOf "mc", strOf "lattice", strOf "ch",
   strOf "ex", strOf "cit", strOf "cu", strOf "owl", strOf "rdf",
   strOf "rdfs", strOf "xsd", strOf "dct", strOf "prov", strOf "bibo",
   strOf "skos", strOf "dbo", strOf "wd", strOf "math"]

/-- Python `s.startswith(pre)`. -/
def startsWith (s pre : Str) : Bool := pre.isPrefixOf s

def allowedExternalPrefixes : List Str :=
  [strOf "http://www.w3.org/", strOf "https://www.w3.org/",
   strOf "http://purl.org/", strOf "https://purl.org/",
   strOf "http://dbpedia.org/", strOf "https://dbpedia.org/",
   strOf "http://www.wikidata.org/", strOf "https://www.wikidata.org/",
   strOf "http://doi.org/", strOf "https://doi.org/",
   strOf "http://en.wikipedia.org/", strOf "https://en.wikipedia.org/",
   strOf "http://arxiv.org/", strOf "https://arxiv.org/",
   strOf "http://metavacua.github.io/", strOf "https://metavacua.github.io/"]

/-- `_is_allowed_absolute_iri`. -/
def isAllowedAbsoluteIri (cfg : YFields) (iri : Str) : Bool :=
  (registeredBases cfg).any (fun base => startsWith iri base) ||
  allowedExternalPrefixes.any (fun pre => startsWith iri pre)

/-- `_is_allowed_identifier`; the `validate_iri_format` call may raise,
and the raise propagates. -/
def isAllowedIdentifierE (cfg : YFields) (rawId expanded : Str) : Except String Bool :=
  if startsWith rawId (strOf "_:") then .ok true
  else
    match validateIriFormatE expanded with
    | .error e => .error e
    | .ok true => .ok (isAllowedAbsoluteIri cfg expanded)
    | .ok false =>
      if rawId.contains ':' ∧ ¬ startsWith rawId (strOf "http:") ∧
          ¬ startsWith rawId (strOf "https:") then
        .ok (registeredPrefixes.contains (rawId.takeWhile (· ≠ ':')))
      else .ok true

/-- `_expand_id`; the `validate_iri_format` call may raise, and the raise
propagates. -/
def expandIdE (rawId : Str) (baseIri : Option Str) : Except String Str :=
  if startsWith rawId (strOf "_:") then .ok rawId
  else
    match validateIriFormatE rawId with
    | .error e => .error e
    | .ok true => .ok rawId
    | .ok false =>
      if rawId.contains ':' ∧ ¬ startsWith rawId (strOf "http:") ∧
          ¬ startsWith rawId (strOf "https:") then .ok rawId
      else
        match baseIri with
        | none => .ok rawId
        | some b => .ok (b ++ rawId)

/-! `_extract_id_values`: a full walk; in an object the `@id` string (when
present) is collected before the member values are visited, then members
are visited in order. -/
mutual
def extractIds : Json → List Str
  | .obj ms =>
    (match jlookup ms (strOf "@id") with
      | some (.str s) => [s]
      | _ => []) ++ extractIdsMembers ms
  | .arr es => extractIdsList es
  | _ => []
def extractIdsList : JsonList → List Str
  | .nil => []
  | .cons e es => extractIds e ++ extractIdsList es
def extractIdsMembers : JsonMembers → List Str
  | .nil => []
  | .cons _ v ms => extractIds v ++ extractIdsMembers ms
end

/-- The array case of `_extract_base_iri`: the first object item carrying a
string `@base`. -/
def firstBaseInList : JsonList → Option Str
  | .nil => none
  | .cons (.obj cms) tl =>
    (match jlookup cms (strOf "@base") with
      | some (.str b) => some b
      | _ => firstBaseInList tl)
  | .cons _ tl => firstBaseInList tl

/-- `_extract_base_iri`. -/
def extractBaseIri : Json → Option Str
  | .obj ms =>
    (match jlookup ms (strOf "@context") with
      | some (.obj cms) =>
        (match jlookup cms (strOf "@base") with
          | some (.str b) => some b
          | _ => none)
      | some (.arr items) => firstBaseInList items
      | _ => none)
  | _ => none

/-! ### `validate_no_fabricated_iris` -/

/-- Python string comparison: code-point lexicographic. -/
def strLt : Str → Str → Bool
  | [], [] => false
  | [], _ :: _ => true
  | _ :: _, [] => false
  | a :: as, b :: bs => if a < b then true else if b < a then false else strLt as bs

def insertStrSorted (x : Str) : List Str → List Str
  | [] => [x]
  | y :: ys => if strLt y x then y :: insertStrSorted x ys else x :: y :: ys

def sortStrs (l : List Str) : List Str := l.foldl (fun acc x => insertStrSorted x acc) []

def dedupStrsAux : List Str → List Str → List Str
  | [], _ => []
  | x :: xs, seen =>
    if seen.contains x then dedupStrsAux xs seen else x :: dedupStrsAux xs (x :: seen)

/-- Python `sorted(set(l))`. -/
def sortedDedup (l : List Str) : List Str := sortStrs (dedupStrsAux l [])

structure ScanResult where
  ok : Bool
  errors : List Str
  warnings : List Str
  found_iris : List Str
  unauthorized_iris : List Str
  base_iri : Option Str
deriving DecidableEq

/-- The `@id` loop of `validate_no_fabricated_iris`: each raw id is
expanded and authorized (either step may raise, aborting the whole
scan); the loop accumulates, in order, the expanded ids, the expanded
unauthorized ids, and the error messages. -/
def scanIdsE (cfg : YFields) (baseIri : Option Str) :
    List Str → Except String (List Str × List Str × List Str)
  | [] => .ok ([], [], [])
  | r :: rs =>
    match expandIdE r baseIri with
    | .error e => .error e
    | .ok ex =>
      match isAllowedIdentifierE cfg r ex with
      | .error e => .error e
      | .ok allowed =>
        match scanIdsE cfg baseIri rs with
        | .error e => .error e
        | .ok res =>
          .ok (ex :: res.1,
               (if allowed then res.2.1 else ex :: res.2.1),
               (if allowed then res.2.2
                else (strOf "Unauthorized @id IRI: " ++ r ++ strOf " (expanded: "
                  ++ ex ++ strOf ")") :: res.2.2))

/-- The scan `validate_no_fabricated_iris` performs once the JSON has
parsed: collect `@base` and every `@id`, authorize each (a
`validate_iri_format` raise propagates), and assemble the result
record. -/
def scanPayloadE (cfg : YFields) (payload : Json) : Except String ScanResult :=
  let baseIri := extractBaseIri payload
  let idValues := extractIds payload
  let baseFound := match baseIri with
    | some b => [b]
    | none => []
  let baseUnauth := match baseIri with
    | some b => if isRegisteredBase cfg b then [] else [b]
    | none => []
  let baseErrs := match baseIri with
    | some b =>
      if isRegisteredBase cfg b then []
      else [strOf "Unregistered @base IRI: " ++ b]
    | none => []
  match scanIdsE cfg baseIri idValues with
  | .error e => .error e
  | .ok res =>
    let errs := baseErrs ++ res.2.2
    .ok { ok := errs.isEmpty
          errors := errs
          warnings := []
          found_iris := sortedDedup (baseFound ++ res.1)
          unauthorized_iris := sortedDedup (baseUnauth ++ res.2.1)
          base_iri := baseIri }

/-- `validate_no_fabricated_iris`: only `json.JSONDecodeError` is caught
(and turned into the error record); the `ValueError` that a
`validate_iri_format` raise produces propagates to the caller. -/
def validateNoFabricatedIris (cfg : YFields) (content : Str) : Except String ScanResult :=
  match jsonLoads content with
  | .error _ =>
    .ok { ok := false
          errors := [strOf "Invalid JSON-LD (malformed JSON)"]
          warnings := []
          found_iris := []
          unauthorized_iris := []
          base_iri := none }
  | .ok payload => scanPayloadE cfg payload

/-- Observer: the `ok` field of a scan call that returned; `false` when
the scan raised instead of returning. -/
def scanSaysOk : Except String ScanResult → Bool
  | .ok r => r.ok
  | .error _ => false

/-- Observer: the `unauthorized_iris` of a scan call that returned; `[]`
when the scan raised instead of returning. -/
def scanUnauthOf : Except String ScanResult → List Str
  | .ok r => r.unauthorized_iris
  | .error _ => []

/-! ### The rebinder -/

def localhostBaseUrl (cfg : YFields) : Except String Str :=
  match ylookup cfg (strOf "localhost") with
  | some (.map m) =>
    (match ylookup m (strOf "base_url") with
      | some (.scalar s) => .ok (rstripSlashes s)
      | _ => .error "Config is missing localhost base_url")
  | _ => .error "Config is missing localhost base_url"

def localhostNamespacePath (cfg : YFields) : Except String Str :=
  match ylookup cfg (strOf "localhost") with
  | some (.map m) =>
    (match ylookup m (strOf "namespace_path") with
      | some (.scalar s) => .ok (rstripSlashes s)
      | _ => .error "Config is missing localhost namespace_path")
  | _ => .error "Config is missing localhost namespace_path"

def productionBaseUrl (cfg : YFields) : Except String Str :=
  match ylookup cfg (strOf "production") with
  | some (.map m) =>
    (match ylookup m (strOf "base_url") with
      | some (.scalar s) => .ok (rstripSlashes s)
      | _ => .error "Config is missing production base_url")
  | _ => .error "Config is missing production base_url"

def productionNamespacePath (cfg : YFields) : Except String Str :=
  match ylookup cfg (strOf "production") with
  | some (.map m) =>
    (match ylookup m (strOf "namespace_path") with
      | some (.scalar s) => .ok (rstripSlashes s)
      | _ => .error "Config is missing production namespace_path")
  | _ => .error "Config is missing production namespace_path"

/-- `_localhost_context_url`. -/
def localhostContextUrl (cfg : YFields) : Except String Str :=
  match localhostBaseUrl cfg, localhostNamespacePath cfg with
  | .ok b, .ok p => .ok (b ++ p ++ strOf "/context.jsonld")
  | .error e, _ => .error e
  | _, .error e => .error e

/-- `_production_context_url`. -/
def productionContextUrl (cfg : YFields) : Except String Str :=
  match productionBaseUrl cfg, productionNamespacePath cfg with
  | .ok b, .ok p => .ok (b ++ p ++ strOf "/context.jsonld")
  | .error e, _ => .error e
  | _, .error e => .error e

/-- The per-ontology pairs of `_build_replacements`, in table order
(entries that are not mappings, or whose IRI fields are not both strings,
are skipped). -/
def ontologyPairs (onts : YFields) (target : Str) : List (Str × Str)  :=
  match onts with
  | .nil => []
  | .cons _ (.map entry) tl =>
    (match getScalarEntry entry "localhost_iri", getScalarEntry entry "production_iri" with
      | some lh, some pr =>
        [if target = strOf "production" then (lh, pr) else (pr, lh)]
      | _, _ => []) ++ ontologyPairs tl target
  | .cons _ (.scalar _) tl => ontologyPairs tl target

/-- `_build_replacements`: ontology pairs, then the context-URL pairs (the
shared context URL and its two relative spellings), sorted longest source
first. -/
def buildReplacements (cfg : YFields) (target : Str) : Except String (List (Str × Str)) :=
  match localhostContextUrl cfg, productionContextUrl cfg with
  | .ok lctx, .ok pctx =>
    let pairs := ontologyPairs (ontologiesD cfg) target
    let ctxPairs :=
      if target = strOf "production" then
        [(lctx, pctx), (strOf "context.jsonld", pctx), (strOf "./context.jsonld", pctx)]
      else
        [(pctx, lctx), (strOf "context.jsonld", lctx), (strOf "./context.jsonld", lctx)]
    .ok (sortByLenDesc (pairs ++ ctxPairs))
  | .error e, _ => .error e
  | _, .error e => .error e

/-- `rebind_iri`: validate the target, check the ontology exists, parse the
JSON, rewrite every string value through the replacement list, and
re-serialize with 2-space indent plus a trailing newline. -/
def rebindIri (cfg : YFields) (rdfContent : Str) (ontologyName target : Str) : Except String Str :=
  if target ≠ strOf "production" ∧ target ≠ strOf "localhost" then
    .error "Invalid target"
  else
    match getOntologyEntry cfg ontologyName with
    | .error e => .error e
    | .ok _ =>
      match jsonLoads rdfContent with
      | .error _ => .error "Invalid JSON-LD malformed JSON"
      | .ok payload =>
        match buildReplacements cfg target with
        | .error e => .error e
        | .ok reps => .ok (dumpJson (rewriteJson reps payload) 0 ++ ['\n'])

/-! ### `register_ontology` -/

/-- `register_ontology`: on success, the new config mapping together with
the text persisted by `_persist_config` (the dumped config plus a trailing
newline). A Python `raise` is an `Except.error` — including a raise from
inside `validate_iri_format`, which propagates — and each check happens
in source order, before the table is mutated. -/
def registerOntology (cfg : YFields) (name localhostIri productionIri filePath : Str) :
    Except String (YFields × Str) :=
  match ontologiesOf cfg with
  | .error e => .error e
  | .ok onts =>
    if (ylookup onts name).isSome then .error "Ontology is already registered"
    else
      match validateIriFormatE localhostIri with
      | .error e => .error e
      | .ok false => .error "Invalid localhost IRI format"
      | .ok true =>
        match validateIriFormatE productionIri with
        | .error e => .error e
        | .ok false => .error "Invalid production IRI format"
        | .ok true =>
          if ¬ endsWithHash localhostIri ∨ ¬ endsWithHash productionIri then
            .error "Ontology IRIs must end with hash"
          else if filePath = [] then .error "file_path is required"
          else
            match localhostContextUrl cfg with
            | .error e => .error e
            | .ok ctxUrl =>
              let entry : YVal := .map (yfields
                [(strOf "localhost_iri", .scalar localhostIri),
                 (strOf "production_iri", .scalar productionIri),
                 (strOf "context_url", .scalar ctxUrl),
                 (strOf "file", .scalar filePath)])
              let onts2 := ydictSet onts name entry
              let cfg2 := ydictSet cfg (strOf "ontologies") (.map onts2)
              .ok (cfg2, dumpSimpleYamlMapping cfg2 0 ++ ['\n'])

/-! ### Concrete fixtures

The registry used by the repository's test suite: localhost
`http://localhost:8080` + `/ontology`, production `https://example.com` +
`/ontology`, with ontologies keyed `a` (and `b`, `a-ext` in the variants
below). -/

def mkEntry (lh pr fileP : String) : YVal :=
  .map (yfields
    [(strOf "localhost_iri", .scalar (strOf lh)),
     (strOf "production_iri", .scalar (strOf pr)),
     (strOf "context_url", .scalar (strOf "http://localhost:8080/ontology/context.jsonld")),
     (strOf "file", .scalar (strOf fileP))])

def sectionsFix : List (Str × YVal) :=
  [(strOf "metadata", .map (yfields [(strOf "version", .scalar (strOf "1.0"))])),
   (strOf "localhost", .map (yfields
     [(strOf "base_url", .scalar (strOf "http://localhost:8080")),
      (strOf "namespace_path", .scalar (strOf "/ontology"))])),
   (strOf "production", .map (yfields
     [(strOf "base_url", .scalar (strOf "https://example.com")),
      (strOf "namespace_path", .scalar (strOf "/ontology"))]))]

def entryA : YVal :=
  mkEntry "http://localhost:8080/ontology/a#" "https://example.com/ontology/a#" "ontology/a.jsonld"

def entryB : YVal :=
  mkEntry "http://localhost:8080/ontology/b#" "https://example.com/ontology/b#" "ontology/b.jsonld"

def entryAExt : YVal :=
  mkEntry "http://localhost:8080/ontology/a-ext#" "https://example.com/ontology/a-ext#"
    "ontology/a-ext.jsonld"

/-- Config with exactly one registered ontology `a`. -/
def cfgOne : YFields :=
  yfields (sectionsFix ++ [(strOf "ontologies", .map (yfields [(strOf "a", entryA)]))])

/-- Config with ontologies `a` and `b` (the unit-test fixture). -/
def cfgA : YFields :=
  yfields (sectionsFix ++
    [(strOf "ontologies", .map (yfields [(strOf "a", entryA), (strOf "b", entryB)]))])

/-- Config with ontologies `a` and `a-ext`, whose bases share a prefix. -/
def cfgExt : YFields :=
  yfields (sectionsFix ++
    [(strOf "ontologies", .map (yfields [(strOf "a", entryA), (strOf "a-ext", entryAExt)]))])

/-- The round-trip document of the repository's integration test:
`@context` = [shared context URL, `@base` = localhost `a` base], one node
with relative `@id` `X`. -/
def docRT : Json := .obj (jfields
  [(strOf "@context", .arr (jitems
     [.str (strOf "http://localhost:8080/ontology/context.jsonld"),
      .obj (jfields [(strOf "@base", .str (strOf "http://localhost:8080/ontology/a#"))])])),
   (strOf "@graph", .arr (jitems [.obj (jfields [(strOf "@id", .str (strOf "X"))])]))])

def docRTText : Str := dumpJson docRT 0

/-- What one pass of the canonical 2-space-indent re-serialization (the
comparison the round-trip property is stated under) makes of a document. -/
def canonicalSerialize (content : Str) : Except String Str :=
  match jsonLoads content with
  | .ok payload => .ok (dumpJson payload 0 ++ ['\n'])
  | .error e => .error e

/-- `rebind(rebind(D, O, "production"), O, "localhost")`. -/
def rebindRoundTrip (cfg : YFields) (content : Str) (name : Str) : Except String Str :=
  match rebindIri cfg content name (strOf "production") with
  | .ok t => rebindIri cfg t name (strOf "localhost")
  | .error e => .error e

/-- C1 / failing input: the context string after the round trip. -/
def c1CorruptedContext : Str :=
  strOf "https://example.com/ontology/http://localhost:8080/ontology/http://localhost:8080/ontology/context.jsonld"

def c1DocBack : Json := .obj (jfields
  [(strOf "@context", .arr (jitems
     [.str c1CorruptedContext,
      .obj (jfields [(strOf "@base", .str (strOf "http://localhost:8080/ontology/a#"))])])),
   (strOf "@graph", .arr (jitems [.obj (jfields [(strOf "@id", .str (strOf "X"))])]))])

/-- Observer for the claim's "context string": the first string of the
`@context` entry (directly or as the first array element). -/
def firstContextString : Json → Option Str
  | .obj ms =>
    (match jlookup ms (strOf "@context") with
      | some (.str s) => some s
      | some (.arr (.cons (.str s) _)) => some s
      | _ => none)
  | _ => none

def c2CorruptCtx : Str :=
  strOf "https://example.com/ontology/https://example.com/ontology/context.jsonld"

def c2DocOut : Json := .obj (jfields
  [(strOf "@context", .arr (jitems
     [.str c2CorruptCtx,
      .obj (jfields [(strOf "@base", .str (strOf "https://example.com/ontology/a#"))])])),
   (strOf "@graph", .arr (jitems [.obj (jfields [(strOf "@id", .str (strOf "X"))])]))])


/-- Observer: does `needle` occur as a contiguous substring of `hay`? -/
def occursInAux : Nat → Str → Str → Bool
  | 0, _, _ => false
  | fuel + 1, hay, needle =>
    if needle.isPrefixOf hay then true
    else
      match hay with
      | [] => false
      | _ :: t => occursInAux fuel t needle

def occursIn (hay needle : Str) : Bool := occursInAux (hay.length + 1) hay needle

/-- A document whose only identifier lives under the longer base `a-ext`. -/
def docExt : Json := .obj (jfields
  [(strOf "@graph", .arr (jitems
     [.obj (jfields [(strOf "@id", .str (strOf "http://localhost:8080/ontology/a-ext#Y"))])]))])

def docExtText : Str := dumpJson docExt 0

def docExtOut : Json := .obj (jfields
  [(strOf "@graph", .arr (jitems
     [.obj (jfields [(strOf "@id", .str (strOf "https://example.com/ontology/a-ext#Y"))])]))])

def ontsAB : YFields := yfields [(strOf "a", entryA), (strOf "b", entryB)]

def entryC : YVal :=
  mkEntry "http://localhost:8080/ontology/c#" "https://example.com/ontology/c#" "ontology/c.jsonld"

/-- The config produced by registering `c` into `cfgA`. -/
def newCfgC : YFields :=
  ydictSet cfgA (strOf "ontologies") (.map (ydictSet ontsAB (strOf "c") entryC))

/-! ### C6/C7 material: claim-side observers and failing inputs -/

/-- The two conditions under which `_load_simple_yaml_mapping` raises for a
line (a non-blank, non-comment line with odd indentation or no colon). -/
def yamlLineBad (rawLine : Str) : Bool :=
  let line := rstripNewlines rawLine
  if pyStrip line = [] ∨ (pyLstrip line).take 1 = ['#'] then false
  else if leadingSpaces line % 2 ≠ 0 then true
  else if ¬ line.contains ':' then true
  else false

/-- The indentation levels of the currently open mappings (the Python
stack: the root at 0 plus every open frame). -/
def openIndentsOf (st : YState) : List Nat := 0 :: st.frames.map YFrame.indent

/-- Formalization of the claim's third failure case, from the spec's
words: the line de-indents (its indentation is below the innermost open
level) to an indentation matching no currently open mapping level. -/
def lineDeIndentMismatch (st : YState) (rawLine : Str) : Bool :=
  let line := rstripNewlines rawLine
  if pyStrip line = [] ∨ (pyLstrip line).take 1 = ['#'] then false
  else
    let indent := leadingSpaces line
    match st.frames with
    | [] => false
    | f :: _ =>
      if indent < f.indent ∧ ¬ (openIndentsOf st).contains indent then true else false

def anyUnmatchedDeIndent : YState → List Str → Bool
  | _, [] => false
  | st, l :: ls =>
    if lineDeIndentMismatch st l then true
    else
      match processYamlLine st l with
      | .ok st2 => anyUnmatchedDeIndent st2 ls
      | .error _ => false

def textHasUnmatchedDeIndent (text : Str) : Bool :=
  anyUnmatchedDeIndent initYState (pySplitlines text)

/-- A document whose fourth line de-indents from level 6 to indentation 4,
which matches no open mapping level (0, 2 and 6 are open). -/
def yamlDeIndentEx : Str := strOf "a:\n    b:\n      d: 1\n    c: 1"

/-- C7 failing inputs: the empty-string scalar and a scalar with embedded
double quotes. -/
def m7Empty : YFields := yfields [(strOf "k", .scalar [])]

def m7EmptyParsed : YFields := yfields [(strOf "k", .map .nil)]

def m7Quote : YFields := yfields [(strOf "k", .scalar (strOf "say \"hi\" now"))]

def m7QuoteParsed : YFields := yfields [(strOf "k", .scalar (strOf "say \\\"hi\\\" now"))]

/-! ### C5 material -/

/-- A registry whose `a` base has an uppercase scheme: it still passes
`validate_iri_format` (urlparse lowercases the scheme). -/
def cfgUpper : YFields :=
  yfields (sectionsFix ++ [(strOf "ontologies", .map (yfields [(strOf "a",
    mkEntry "HTTP://h/a#" "https://example.com/ontology/a#" "ontology/a.jsonld")]))])

/-- A document whose unregistered `@base` is the registered `a` base plus
the suffix `x`, and whose single `@id` is that same string. -/
def docCollide : Json := .obj (jfields
  [(strOf "@context", .obj (jfields
     [(strOf "@base", .str (strOf "http://localhost:8080/ontology/a#x"))])),
   (strOf "@graph", .arr (jitems
     [.obj (jfields [(strOf "@id", .str (strOf "http://localhost:8080/ontology/a#x"))])]))])

/-- A document whose single `@id` sits under the uppercase-scheme base
with a whitespace-bearing suffix. -/
def docUpper : Json := .obj (jfields
  [(strOf "@graph", .arr (jitems
     [.obj (jfields [(strOf "@id", .str (strOf "HTTP://h/a#Y Z"))])]))])

/-- The fabricated-IRI document of the repository's unit test: a
registered `@base` but an `@id` under `http://evil.example/`. -/
def docEvil : Json := .obj (jfields
  [(strOf "@context", .arr (jitems
     [.str (strOf "http://localhost:8080/ontology/context.jsonld"),
      .obj (jfields [(strOf "@base", .str (strOf "http://localhost:8080/ontology/a#"))])])),
   (strOf "@graph", .arr (jitems
     [.obj (jfields [(strOf "@id", .str (strOf "http://evil.example/ontology#X"))])]))])

/-! ### C3 counterexample material

A registry in which one pair's production IRI contains another pair's
localhost base as a substring. Every IRI below passes
`validate_iri_format` and ends with `#`, so `register_ontology` itself
accepts the second entry into a config holding the first. -/

def entryAdv1 : YVal := mkEntry "http://h/on/a#" "https://e.example/a#" "ontology/x1.jsonld"

def entryAdv2 : YVal :=
  mkEntry "http://h/on/a#b#" "http://e/http://h/on/a#b#" "ontology/x2.jsonld"

/-- The adversarial registry with only its first ontology. -/
def cfgAdvOne : YFields :=
  yfields (sectionsFix ++ [(strOf "ontologies", .map (yfields [(strOf "a", entryAdv1)]))])

/-- The full adversarial registry: the localhost bases `http://h/on/a#`
and `http://h/on/a#b#` share a prefix, and the production IRI of the
second is `http://e/http://h/on/a#b#`. -/
def cfgAdv : YFields :=
  yfields (sectionsFix ++
    [(strOf "ontologies", .map (yfields [(strOf "a", entryAdv1), (strOf "b", entryAdv2)]))])

/-- A document whose only identifier lives under the longer base
`http://h/on/a#b#`. -/
def docAdv : Json := .obj (jfields
  [(strOf "@graph", .arr (jitems
     [.obj (jfields [(strOf "@id", .str (strOf "http://h/on/a#b#Y"))])]))])

def docAdvText : Str := dumpJson docAdv 0

/-- What rebinding `docAdv` to production actually produces: the longer
base is substituted first (to `http://e/http://h/on/a#b#Y`), and then
the shorter base's pair rewrites inside that substituted text. -/
def docAdvOut : Json := .obj (jfields
  [(strOf "@graph", .arr (jitems
     [.obj (jfields [(strOf "@id", .str (strOf "http://e/https://e.example/a#b#Y"))])]))])

/-! ### C5/C8 counterexample material: identifiers on which
`validate_iri_format` raises -/

/-- A registry whose registered base `http://host` passes
`validate_iri_format` but does not end in `#` (the config file is data;
nothing forces a hand-written entry through `register_ontology`). -/
def cfgNoHash : YFields :=
  yfields (sectionsFix ++ [(strOf "ontologies", .map (yfields [(strOf "a",
    mkEntry "http://host" "https://example.com/ontology/a#" "ontology/a.jsonld")]))])

/-- A document whose single `@id` is the registered base `http://host`
plus the suffix `[x`: the suffix extends the netloc with an unbalanced
bracket. -/
def docBracketUnder : Json := .obj (jfields
  [(strOf "@graph", .arr (jitems
     [.obj (jfields [(strOf "@id", .str (strOf "http://host[x"))])]))])

/-- A document whose single `@id` is `http://[x`, on which
`validate_iri_format` raises `ValueError("Invalid IPv6 URL")`. -/
def docBracket : Json := .obj (jfields
  [(strOf "@graph", .arr (jitems
     [.obj (jfields [(strOf "@id", .str (strOf "http://[x"))])]))])

def docBracketText : Str := dumpJson docBracket 0
/-! ## Claim theorems -/

/-- C1: the round-trip of rebinding is violated on the very document the
repository's own `test_roundtrip_localhost_to_production_to_localhost`
asserts it on. The document is valid against the registry (the scan comes
back `ok`), both rebinds succeed, yet the result differs from the
canonical serialization of the input: the shared-context string comes back
as `c1CorruptedContext`, because `_build_replacements` also maps the bare
spelling `"context.jsonld"` to the full context URL and `_replace_many`
applies that pair to the context URL substituted by an earlier, longer
pair. -/
theorem c1_roundtrip_violated_eval :
    scanSaysOk (validateNoFabricatedIris cfgOne docRTText) = true ∧
    rebindRoundTrip cfgOne docRTText (strOf "a") = .ok (dumpJson c1DocBack 0 ++ ['\n']) ∧
    canonicalSerialize docRTText = .ok (dumpJson docRT 0 ++ ['\n']) ∧
    dumpJson c1DocBack 0 ≠ dumpJson docRT 0 := by
  refine ⟨by decide, by decide, by decide, by decide⟩

/-- C2: rebinding the claim's document to production does update `@base`
to the production base and leaves the relative `@id` `"X"` unchanged, but
the context string does not become the production context URL: it comes
back doubled (`c2CorruptCtx`), because the `("context.jsonld", production
context URL)` replacement pair re-applies inside the URL substituted by
the earlier, longer pair. -/
theorem c2_concrete_rebind_eval :
    rebindIri cfgOne docRTText (strOf "a") (strOf "production")
      = .ok (dumpJson c2DocOut 0 ++ ['\n']) ∧
    extractBaseIri c2DocOut = some (strOf "https://example.com/ontology/a#") ∧
    extractIds c2DocOut = [strOf "X"] ∧
    firstContextString c2DocOut = some c2CorruptCtx ∧
    c2CorruptCtx ≠ strOf "https://example.com/ontology/context.jsonld" := by
  refine ⟨by decide, by decide, by decide, by decide, by decide⟩

theorem mem_insertByLen (p q : Str × Str) :
    ∀ l, q ∈ insertByLen p l ↔ q = p ∨ q ∈ l
  | [] => by simp [insertByLen]
  | r :: rs => by
    simp only [insertByLen]
    split
    · simp [List.mem_cons]
    · rw [List.mem_cons, mem_insertByLen p q rs, List.mem_cons]
      tauto

theorem sorted_insertByLen (p : Str × Str) :
    ∀ l, List.Pairwise (fun a b : Str × Str => b.1.length ≤ a.1.length) l →
      List.Pairwise (fun a b : Str × Str => b.1.length ≤ a.1.length) (insertByLen p l)
  | [], _ => by simp [insertByLen]
  | q :: qs, h => by
    rcases List.pairwise_cons.mp h with ⟨hq, hqs⟩
    simp only [insertByLen]
    split
    · refine List.pairwise_cons.mpr ⟨?_, h⟩
      intro x hx
      rcases List.mem_cons.mp hx with rfl | hx'
      · exact Nat.le_of_lt (by assumption)
      · exact le_trans (hq x hx') (Nat.le_of_lt (by assumption))
    · refine List.pairwise_cons.mpr ⟨?_, sorted_insertByLen p qs hqs⟩
      intro x hx
      rcases (mem_insertByLen p x qs).mp hx with rfl | hx'
      · exact Nat.le_of_not_lt (by assumption)
      · exact hq x hx'

theorem sorted_foldl_insertByLen :
    ∀ (l : List (Str × Str)) (acc : List (Str × Str)),
      List.Pairwise (fun a b : Str × Str => b.1.length ≤ a.1.length) acc →
      List.Pairwise (fun a b : Str × Str => b.1.length ≤ a.1.length)
        (l.foldl (fun acc p => insertByLen p acc) acc)
  | [], _, h => h
  | p :: ps, acc, h => sorted_foldl_insertByLen ps (insertByLen p acc) (sorted_insertByLen p acc h)

/-- C3 (amended): replacement pairs are applied longest source first. The
sort `_build_replacements` ends with always yields a list that is pairwise
non-increasing in source length; and in the claim's own example registry —
the two ontologies `a` and `a-ext`, whose bases share a prefix — rebinding
a document whose identifier lives under the longer base yields the longer
base's production counterpart intact, and the corrupted mixture in which
the shorter base's replacement partially consumed the longer base does not
occur anywhere in the output. (The guarantee is not universal: see the
counterexample, where a production IRI that itself contains another pair's
source lets a later, shorter pair rewrite inside substituted text.) -/
theorem c3_longest_match_first :
    (∀ l : List (Str × Str),
      List.Pairwise (fun a b : Str × Str => b.1.length ≤ a.1.length) (sortByLenDesc l)) ∧
    rebindIri cfgExt docExtText (strOf "a") (strOf "production")
      = .ok (dumpJson docExtOut 0 ++ ['\n']) ∧
    occursIn (dumpJson docExtOut 0) (strOf "https://example.com/ontology/a-ext#Y") = true ∧
    occursIn (dumpJson docExtOut 0) (strOf "https://example.com/ontology/a#ext#Y") = false := by
  refine ⟨fun l => sorted_foldl_insertByLen l [] (by simp), by decide, by decide, by decide⟩

/-- C3 counterexample: the claim's universal statement — for any two
registered ontologies whose bases share a prefix, no document is ever left
with the shorter base's replacement partially consuming the longer base —
is false of the program. The registry is reachable through
`register_ontology` itself (first conjunct: registering the second entry
into a config holding the first succeeds and yields exactly `cfgAdv`):
the localhost bases `http://h/on/a#` and `http://h/on/a#b#` share a
prefix, and the production IRI of the longer one, `http://e/http://h/on/a#b#`,
is format-valid and `#`-terminated. Rebinding the document whose one
identifier is `http://h/on/a#b#Y` first substitutes the longer base
(giving `http://e/http://h/on/a#b#Y`), and the shorter base's pair then
rewrites inside that substituted text: the output carries
`https://e.example/a#b#Y` — the shorter base's replacement followed by a
dangling remnant of the longer base — and the intended
`http://e/http://h/on/a#b#Y` nowhere. -/
theorem c3_cross_base_counterexample :
    registerOntology cfgAdvOne (strOf "b") (strOf "http://h/on/a#b#")
        (strOf "http://e/http://h/on/a#b#") (strOf "ontology/x2.jsonld")
      = .ok (cfgAdv, dumpSimpleYamlMapping cfgAdv 0 ++ ['\n']) ∧
    startsWith (strOf "http://h/on/a#b#") (strOf "http://h/on/a#") = true ∧
    extractIds docAdv = [strOf "http://h/on/a#b#" ++ strOf "Y"] ∧
    rebindIri cfgAdv docAdvText (strOf "a") (strOf "production")
      = .ok (dumpJson docAdvOut 0 ++ ['\n']) ∧
    occursIn (dumpJson docAdvOut 0) (strOf "http://e/http://h/on/a#b#" ++ strOf "Y") = false ∧
    occursIn (dumpJson docAdvOut 0) (strOf "https://e.example/a#" ++ strOf "b#Y") = true := by
  refine ⟨by decide, by decide, by decide, by decide, by decide, by decide⟩

/-- C9: the output of `rebind_iri` does not depend on which registered
ontology name is passed: the name is used only for the existence check,
and the replacement set is built from the whole registry. -/
theorem c9_rebind_name_irrelevant (cfg : YFields) (content n1 n2 target : Str)
    (h1 : (getOntologyEntry cfg n1).isOk = true)
    (h2 : (getOntologyEntry cfg n2).isOk = true) :
    rebindIri cfg content n1 target = rebindIri cfg content n2 target := by
  obtain ⟨e1, he1⟩ : ∃ e, getOntologyEntry cfg n1 = .ok e := by
    cases h : getOntologyEntry cfg n1 with
    | ok e => exact ⟨e, rfl⟩
    | error e => rw [h] at h1; simp [Except.isOk, Except.toBool] at h1
  obtain ⟨e2, he2⟩ : ∃ e, getOntologyEntry cfg n2 = .ok e := by
    cases h : getOntologyEntry cfg n2 with
    | ok e => exact ⟨e, rfl⟩
    | error e => rw [h] at h2; simp [Except.isOk, Except.toBool] at h2
  by_cases ht : target ≠ strOf "production" ∧ target ≠ strOf "localhost"
  · simp [rebindIri, ht]
  · simp [rebindIri, ht, he1, he2]

theorem c9_rebind_name_irrelevant_witness :
    rebindIri cfgA docRTText (strOf "a") (strOf "production")
      = rebindIri cfgA docRTText (strOf "b") (strOf "production") :=
  c9_rebind_name_irrelevant cfgA docRTText (strOf "a") (strOf "b") (strOf "production")
    (by decide) (by decide)

theorem netlocChecksE_ok_eq (m n : Str) (h : netlocChecksE m = .ok n) : n = m := by
  simp only [netlocChecksE] at h
  split at h
  next => exact Except.noConfusion h
  next =>
    split at h
    next => exact Except.noConfusion h
    next =>
      split at h
      next => exact Except.noConfusion h
      next => exact ((Except.ok.injEq _ _).mp h).symm

theorem urlsplitNetlocE_ok_eq (a n : Str) (h : urlsplitNetlocE a = .ok n) :
    n = netlocOf a :=
  netlocChecksE_ok_eq (netlocOf a) n h

/-- `validate_iri_format` returns `True` exactly when the input has no
whitespace, the normalized input's scheme parses as `http`/`https`, the
netloc checks of `urlsplit` pass, and the netloc is non-empty. -/
theorem validateE_ok_true_iff (iri : Str) :
    validateIriFormatE iri = .ok true ↔
      ((∀ c ∈ iri, pyIsSpace c = false) ∧
       ((splitScheme (urlsplitPre iri)).1 = strOf "http" ∨
        (splitScheme (urlsplitPre iri)).1 = strOf "https") ∧
       urlsplitNetlocE (splitScheme (urlsplitPre iri)).2
         = .ok (netlocOf (splitScheme (urlsplitPre iri)).2) ∧
       netlocOf (splitScheme (urlsplitPre iri)).2 ≠ []) := by
  constructor
  · intro h
    cases hu : urlsplitNetlocE (splitScheme (urlsplitPre iri)).2 with
    | error e =>
      simp only [validateIriFormatE, hu] at h
      split at h
      next => exact absurd ((Except.ok.injEq _ _).mp h) (by decide)
      next => exact Except.noConfusion h
    | ok netloc =>
      have hnet : netloc = netlocOf (splitScheme (urlsplitPre iri)).2 :=
        urlsplitNetlocE_ok_eq _ _ hu
      subst hnet
      simp only [validateIriFormatE, hu] at h
      split at h
      next => exact absurd ((Except.ok.injEq _ _).mp h) (by decide)
      next h0 =>
        split at h
        next h1 => exact absurd ((Except.ok.injEq _ _).mp h) (by decide)
        next h1 =>
          split at h
          next h2 => exact absurd ((Except.ok.injEq _ _).mp h) (by decide)
          next h2 =>
            refine ⟨?_, ?_, rfl, h2⟩
            · intro c hc
              by_contra hcs
              exact h0 (Or.inr (List.any_eq_true.mpr
                ⟨c, hc, by revert hcs; cases pyIsSpace c <;> simp⟩))
            · rcases not_and_or.mp h1 with hh | hh
              · exact Or.inl (not_ne_iff.mp hh)
              · exact Or.inr (not_ne_iff.mp hh)
  · rintro ⟨hws, hsch, hnetE, hnet⟩
    have hne : iri ≠ [] := by
      intro hnil
      rw [hnil] at hsch
      rcases hsch with h | h <;> exact absurd h (by decide)
    have hany : iri.any pyIsSpace = false := by
      rw [List.any_eq_false]
      intro c hc
      rw [hws c hc]
      simp
    have hA : ¬(iri = [] ∨ iri.any pyIsSpace = true) := by
      rintro (h | h)
      · exact hne h
      · rw [hany] at h; cases h
    have hB : ¬((splitScheme (urlsplitPre iri)).1 ≠ strOf "http" ∧
        (splitScheme (urlsplitPre iri)).1 ≠ strOf "https") := by
      rcases hsch with h | h
      · exact fun hc => hc.1 h
      · exact fun hc => hc.2 h
    simp only [validateIriFormatE, hnetE]
    rw [if_neg hA, if_neg hB, if_neg hnet]

/-- `validate_iri_format` raises exactly when the input passes the
emptiness/whitespace guard but the netloc checks of the embedded
`urlsplit` raise. -/
theorem validateE_error_iff (iri : Str) :
    (validateIriFormatE iri).isOk = false ↔
      (iri ≠ [] ∧ iri.any pyIsSpace = false ∧
       (urlsplitNetlocE (splitScheme (urlsplitPre iri)).2).isOk = false) := by
  by_cases h0 : (iri = [] ∨ iri.any pyIsSpace = true)
  · have hv : validateIriFormatE iri = .ok false := by
      simp only [validateIriFormatE]
      rw [if_pos h0]
    rw [hv]
    constructor
    · intro h
      simp [Except.isOk, Except.toBool] at h
    · rintro ⟨hne, hany, -⟩
      rcases h0 with h | h
      · exact absurd h hne
      · rw [hany] at h
        exact Bool.noConfusion h
  · rw [not_or] at h0
    obtain ⟨hne, hanyne⟩ := h0
    have hany : iri.any pyIsSpace = false := by
      revert hanyne
      cases iri.any pyIsSpace <;> simp
    cases hu : urlsplitNetlocE (splitScheme (urlsplitPre iri)).2 with
    | error e =>
      have hv : validateIriFormatE iri = .error e := by
        simp only [validateIriFormatE, hu]
        rw [if_neg (by rw [not_or]; exact ⟨hne, hanyne⟩)]
      rw [hv]
      simp [Except.isOk, Except.toBool, hne, hany]
    | ok n =>
      have hv : (validateIriFormatE iri).isOk = true := by
        simp only [validateIriFormatE, hu]
        rw [if_neg (by rw [not_or]; exact ⟨hne, hanyne⟩)]
        split
        next => rfl
        next =>
          split
          next => rfl
          next => rfl
      rw [hv]
      simp [Except.isOk, Except.toBool]

/-- C8 counterexample: `validate_iri_format` is not raise-free. On the
whitespace-free input `http://[x` the embedded `urlparse` raises
`ValueError("Invalid IPv6 URL")` — the netloc carries an unbalanced
square bracket — and on `http://℀y` the `_checknetloc` step raises: the
netloc `℀y` changes under NFKC normalization into `a/cy`, introducing a
`/`. Neither input reaches the function's `return` statements. -/
theorem c8_claim_counterexample :
    ((strOf "http://[x").any pyIsSpace = false ∧
     validateIriFormatE (strOf "http://[x") = .error "Invalid IPv6 URL") ∧
    ((strOf "http://℀y").any pyIsSpace = false ∧
     validateIriFormatE (strOf "http://℀y")
       = .error "netloc contains invalid characters under NFKC normalization") := by
  refine ⟨⟨by decide, by decide⟩, by decide, by decide⟩

/-- C8 (amended): `validate_iri_format` is total and pure except that it
propagates the `ValueError` of the embedded `urlparse`. It returns `True`
exactly when the input has no whitespace character, the (normalized)
input's URL scheme parses as `http` or `https`, the netloc passes
`urlsplit`'s checks, and the netloc is non-empty; and it raises exactly
when a non-empty, whitespace-free input has a netloc those checks reject
(unbalanced square brackets, an invalid bracketed host, or a netloc that
gains a delimiter under NFKC normalization); on every other input —
including the empty string — it returns `False`. -/
theorem c8_validate_iri_format_contract :
    ∀ iri : Str,
      (validateIriFormatE iri = .ok true ↔
        ((∀ c ∈ iri, pyIsSpace c = false) ∧
         ((splitScheme (urlsplitPre iri)).1 = strOf "http" ∨
          (splitScheme (urlsplitPre iri)).1 = strOf "https") ∧
         urlsplitNetlocE (splitScheme (urlsplitPre iri)).2
           = .ok (netlocOf (splitScheme (urlsplitPre iri)).2) ∧
         netlocOf (splitScheme (urlsplitPre iri)).2 ≠ [])) ∧
      ((validateIriFormatE iri).isOk = false ↔
        (iri ≠ [] ∧ iri.any pyIsSpace = false ∧
         (urlsplitNetlocE (splitScheme (urlsplitPre iri)).2).isOk = false)) :=
  fun iri => ⟨validateE_ok_true_iff iri, validateE_error_iff iri⟩

/-- C4: `register_ontology` fails exactly when the name is already
registered, an IRI fails format validation — `validate_iri_format`
returns `False`, or itself raises, so "validation did not return `True`" —
an IRI does not end with `#`, or the file path is empty (given a config
whose `ontologies` mapping and localhost section are intact, as
`_load_config` guarantees for the table and the fixture configs provide
for the context URL). Every check happens before the table is touched —
the embedding returns an error without constructing any new state,
mirroring the source order of the raises — and on success the result is
the old config with exactly the new entry inserted, persisted as the dump
of the whole new config plus a newline. -/
theorem c4_register_ontology (cfg : YFields) (onts : YFields) (name lh pr fp : Str)
    (hOnts : ontologiesOf cfg = .ok onts)
    (hCtx : (localhostContextUrl cfg).isOk = true) :
    ((registerOntology cfg name lh pr fp).isOk = false ↔
      ((ylookup onts name).isSome = true ∨ validateIriFormatE lh ≠ .ok true ∨
       validateIriFormatE pr ≠ .ok true ∨ endsWithHash lh = false ∨
       endsWithHash pr = false ∨ fp = [])) ∧
    (∀ newCfg persisted,
      registerOntology cfg name lh pr fp = .ok (newCfg, persisted) →
      ∃ ctxUrl, localhostContextUrl cfg = .ok ctxUrl ∧
        newCfg = ydictSet cfg (strOf "ontologies")
          (.map (ydictSet onts name (.map (yfields
            [(strOf "localhost_iri", .scalar lh),
             (strOf "production_iri", .scalar pr),
             (strOf "context_url", .scalar ctxUrl),
             (strOf "file", .scalar fp)])))) ∧
        persisted = dumpSimpleYamlMapping newCfg 0 ++ ['\n']) := by
  obtain ⟨ctxUrl, hctx⟩ : ∃ u, localhostContextUrl cfg = .ok u := by
    cases h : localhostContextUrl cfg with
    | ok u => exact ⟨u, rfl⟩
    | error e => rw [h] at hCtx; simp [Except.isOk, Except.toBool] at hCtx
  cases hdup : (ylookup onts name).isSome with
  | true =>
    refine ⟨by simp [registerOntology, hOnts, hdup, Except.isOk, Except.toBool], ?_⟩
    intro newCfg persisted hok
    simp [registerOntology, hOnts, hdup] at hok
  | false =>
    cases hlh : validateIriFormatE lh with
    | error e =>
      refine ⟨by simp [registerOntology, hOnts, hdup, hlh, Except.isOk, Except.toBool], ?_⟩
      intro newCfg persisted hok
      simp [registerOntology, hOnts, hdup, hlh] at hok
    | ok blh =>
      cases blh with
      | false =>
        refine ⟨by simp [registerOntology, hOnts, hdup, hlh, Except.isOk, Except.toBool], ?_⟩
        intro newCfg persisted hok
        simp [registerOntology, hOnts, hdup, hlh] at hok
      | true =>
        cases hpr : validateIriFormatE pr with
        | error e =>
          refine ⟨by simp [registerOntology, hOnts, hdup, hlh, hpr,
            Except.isOk, Except.toBool], ?_⟩
          intro newCfg persisted hok
          simp [registerOntology, hOnts, hdup, hlh, hpr] at hok
        | ok bpr =>
          cases bpr with
          | false =>
            refine ⟨by simp [registerOntology, hOnts, hdup, hlh, hpr,
              Except.isOk, Except.toBool], ?_⟩
            intro newCfg persisted hok
            simp [registerOntology, hOnts, hdup, hlh, hpr] at hok
          | true =>
            cases hel : endsWithHash lh with
            | false =>
              refine ⟨by simp [registerOntology, hOnts, hdup, hlh, hpr, hel,
                Except.isOk, Except.toBool], ?_⟩
              intro newCfg persisted hok
              simp [registerOntology, hOnts, hdup, hlh, hpr, hel] at hok
            | true =>
              cases hep : endsWithHash pr with
              | false =>
                refine ⟨by simp [registerOntology, hOnts, hdup, hlh, hpr, hel, hep,
                  Except.isOk, Except.toBool], ?_⟩
                intro newCfg persisted hok
                simp [registerOntology, hOnts, hdup, hlh, hpr, hel, hep] at hok
              | true =>
                by_cases hfp : fp = []
                · refine ⟨by simp [registerOntology, hOnts, hdup, hlh, hpr, hel, hep, hfp,
                    Except.isOk, Except.toBool], ?_⟩
                  intro newCfg persisted hok
                  simp [registerOntology, hOnts, hdup, hlh, hpr, hel, hep, hfp] at hok
                · refine ⟨by simp [registerOntology, hOnts, hdup, hlh, hpr, hel, hep, hfp,
                    hctx, Except.isOk, Except.toBool], ?_⟩
                  intro newCfg persisted hok
                  simp only [registerOntology, hOnts, hdup, hlh, hpr, hel, hep, hctx] at hok
                  rw [if_neg (by simp), if_neg (by simp), if_neg hfp] at hok
                  refine ⟨ctxUrl, hctx, ?_, ?_⟩
                  · exact (Prod.mk.injEq _ _ _ _ ▸ (Except.ok.injEq _ _ ▸ hok)).1.symm
                  · have h2 := ((Prod.mk.injEq _ _ _ _).mp ((Except.ok.injEq _ _).mp hok))
                    rw [← h2.1, ← h2.2]

theorem c4_register_ontology_witness :
    (registerOntology cfgA (strOf "c") (strOf "http://localhost:8080/ontology/c#")
      (strOf "https://example.com/ontology/c#") (strOf "ontology/c.jsonld")).isOk = true := by
  have h := (c4_register_ontology cfgA (yfields [(strOf "a", entryA), (strOf "b", entryB)])
    (strOf "c") (strOf "http://localhost:8080/ontology/c#")
    (strOf "https://example.com/ontology/c#") (strOf "ontology/c.jsonld")
    (by decide) (by decide)).1
  cases hok : (registerOntology cfgA (strOf "c") (strOf "http://localhost:8080/ontology/c#")
      (strOf "https://example.com/ontology/c#") (strOf "ontology/c.jsonld")).isOk with
  | true => rfl
  | false => exact absurd (h.mp hok) (by decide)

theorem ylookup_ydictSet_self : ∀ (m : YFields) (k : Str) (v : YVal),
    ylookup (ydictSet m k v) k = some v
  | .nil, k, v => by simp [ydictSet, ylookup]
  | .cons k0 v0 tl, k, v => by
    simp only [ydictSet]
    split
    next h => simp [ylookup, h]
    next h => simp [ylookup, h, ylookup_ydictSet_self tl k v]

theorem ylookup_ydictSet_ne : ∀ (m : YFields) (k : Str) (v : YVal) (k' : Str), k' ≠ k →
    ylookup (ydictSet m k v) k' = ylookup m k'
  | .nil, k, v, k', hne => by
    simp only [ydictSet, ylookup]
    rw [if_neg (fun h => hne h.symm)]
  | .cons k0 v0 tl, k, v, k', hne => by
    simp only [ydictSet]
    split
    next h =>
      subst h
      simp only [ylookup]
      rw [if_neg (fun hh => hne hh.symm), if_neg (fun hh => hne hh.symm)]
    next h =>
      simp only [ylookup]
      split
      next => rfl
      next => exact ylookup_ydictSet_ne tl k v k' hne

/-- C10: a successfully registered entry always stores the localhost
context URL — `localhost.base_url` (trailing slashes stripped) ++
`localhost.namespace_path` (trailing slashes stripped) ++
`"/context.jsonld"` — independently of the production section (rewriting
the `production` section of the config leaves the computed context URL
unchanged) and of the IRIs passed in (they do not occur in the stored
`context_url`). -/
theorem c10_registered_context_url_is_localhost (cfg : YFields)
    (name lh pr fp : Str) (newCfg : YFields) (persisted : Str)
    (hok : registerOntology cfg name lh pr fp = .ok (newCfg, persisted)) :
    ∃ lb np onts,
      localhostBaseUrl cfg = .ok lb ∧ localhostNamespacePath cfg = .ok np ∧
      ontologiesOf cfg = .ok onts ∧
      ylookup (ontologiesD newCfg) name = some (.map (yfields
        [(strOf "localhost_iri", .scalar lh),
         (strOf "production_iri", .scalar pr),
         (strOf "context_url", .scalar (lb ++ np ++ strOf "/context.jsonld")),
         (strOf "file", .scalar fp)])) ∧
      (∀ v : YVal, localhostContextUrl (ydictSet cfg (strOf "production") v)
        = localhostContextUrl cfg) := by
  cases hOnts : ontologiesOf cfg with
  | error e => simp [registerOntology, hOnts] at hok
  | ok onts =>
  simp only [registerOntology, hOnts] at hok
  split at hok
  next => exact Except.noConfusion hok
  next hdup =>
  cases hlh : validateIriFormatE lh with
  | error e =>
    simp [hlh] at hok
  | ok blh =>
  cases blh with
  | false =>
    simp [hlh] at hok
  | true =>
  simp only [hlh] at hok
  cases hpr : validateIriFormatE pr with
  | error e =>
    simp [hpr] at hok
  | ok bpr =>
  cases bpr with
  | false =>
    simp [hpr] at hok
  | true =>
  simp only [hpr] at hok
  split at hok
  next => exact Except.noConfusion hok
  next hhash =>
  split at hok
  next => exact Except.noConfusion hok
  next hfp =>
  cases hctx : localhostContextUrl cfg with
  | error e => rw [hctx] at hok; simp at hok
  | ok u =>
  rw [hctx] at hok
  cases hb : localhostBaseUrl cfg with
  | error e => simp [localhostContextUrl, hb] at hctx
  | ok lb =>
  cases hn : localhostNamespacePath cfg with
  | error e => simp [localhostContextUrl, hb, hn] at hctx
  | ok np =>
  have hu : u = lb ++ np ++ strOf "/context.jsonld" := by
    simp only [localhostContextUrl, hb, hn] at hctx
    exact ((Except.ok.injEq _ _).mp hctx).symm
  have hinj := (Except.ok.injEq _ _).mp hok
  have hNew : newCfg = ydictSet cfg (strOf "ontologies")
      (.map (ydictSet onts name (.map (yfields
        [(strOf "localhost_iri", .scalar lh),
         (strOf "production_iri", .scalar pr),
         (strOf "context_url", .scalar u),
         (strOf "file", .scalar fp)])))) :=
    ((Prod.mk.injEq _ _ _ _).mp hinj).1.symm
  have hEntry : ylookup (ontologiesD newCfg) name = some (.map (yfields
      [(strOf "localhost_iri", .scalar lh),
       (strOf "production_iri", .scalar pr),
       (strOf "context_url", .scalar (lb ++ np ++ strOf "/context.jsonld")),
       (strOf "file", .scalar fp)])) := by
    rw [hNew]
    simp only [ontologiesD, ylookup_ydictSet_self]
    rw [← hu]
  have hProd : ∀ v : YVal, localhostContextUrl (ydictSet cfg (strOf "production") v)
      = Except.ok u := by
    intro v
    have hlk : ylookup (ydictSet cfg (strOf "production") v) (strOf "localhost")
        = ylookup cfg (strOf "localhost") :=
      ylookup_ydictSet_ne cfg (strOf "production") v (strOf "localhost") (by decide)
    have h1 : localhostBaseUrl (ydictSet cfg (strOf "production") v) = localhostBaseUrl cfg := by
      simp only [localhostBaseUrl, hlk]
    have h2 : localhostNamespacePath (ydictSet cfg (strOf "production") v)
        = localhostNamespacePath cfg := by
      simp only [localhostNamespacePath, hlk]
    have h3 : localhostContextUrl (ydictSet cfg (strOf "production") v)
        = localhostContextUrl cfg := by
      simp only [localhostContextUrl, h1, h2]
    exact h3.trans hctx
  exact ⟨lb, np, onts, rfl, rfl, rfl, hEntry, hProd⟩

theorem c10_registered_context_url_witness :
    ∃ lb np onts,
      localhostBaseUrl cfgA = .ok lb ∧ localhostNamespacePath cfgA = .ok np ∧
      ontologiesOf cfgA = .ok onts ∧
      ylookup (ontologiesD newCfgC) (strOf "c") = some (.map (yfields
        [(strOf "localhost_iri", .scalar (strOf "http://localhost:8080/ontology/c#")),
         (strOf "production_iri", .scalar (strOf "https://example.com/ontology/c#")),
         (strOf "context_url", .scalar (lb ++ np ++ strOf "/context.jsonld")),
         (strOf "file", .scalar (strOf "ontology/c.jsonld"))])) ∧
      (∀ v : YVal, localhostContextUrl (ydictSet cfgA (strOf "production") v)
        = localhostContextUrl cfgA) :=
  c10_registered_context_url_is_localhost cfgA (strOf "c")
    (strOf "http://localhost:8080/ontology/c#") (strOf "https://example.com/ontology/c#")
    (strOf "ontology/c.jsonld") newCfgC (dumpSimpleYamlMapping newCfgC 0 ++ ['\n']) (by decide)

/-- C7: `dump` is not the structural inverse of `parse` on the restricted
config subset, and the loss is silent. The empty-string scalar is dumped
as a valueless `key: ` line, which the parser reads back as an empty
nested mapping; and a quoted scalar's backslash escapes are never undone
by the parser, so a value with embedded double quotes comes back with
spurious backslashes. -/
theorem c7_dump_parse_not_inverse_eval :
    loadSimpleYamlMapping (dumpSimpleYamlMapping m7Empty 0) = .ok m7EmptyParsed ∧
    m7EmptyParsed ≠ m7Empty ∧
    loadSimpleYamlMapping (dumpSimpleYamlMapping m7Quote 0) = .ok m7QuoteParsed ∧
    m7QuoteParsed ≠ m7Quote := by
  refine ⟨by decide, by decide, by decide, by decide⟩

/-- C6 counterexample: an input in the claim's third error class — its
last line de-indents to indentation 4 while the open mapping levels are 0,
2 and 6 — which the parser nonetheless accepts, attaching `c` to the
mapping open at level 2. The source's stack-empty error is unreachable
(the root frame at indentation 0 is never popped since no indentation is
below 0), so no input fails for the de-indent reason. -/
theorem c6_unmatched_deindent_counterexample :
    textHasUnmatchedDeIndent yamlDeIndentEx = true ∧
    loadSimpleYamlMapping yamlDeIndentEx = .ok (yfields [(strOf "a", .map (yfields
      [(strOf "b", .map (yfields [(strOf "d", .scalar (strOf "1"))])),
       (strOf "c", .scalar (strOf "1"))]))]) := by
  refine ⟨by decide, by decide⟩

theorem processYamlLine_error_of_bad (st : YState) (l : Str) (h : yamlLineBad l = true) :
    ∃ e, processYamlLine st l = .error e := by
  simp only [yamlLineBad] at h
  simp only [processYamlLine]
  split
  next hskip => rw [if_pos hskip] at h; simp at h
  next hskip =>
    rw [if_neg hskip] at h
    split
    next hodd => exact ⟨_, rfl⟩
    next hodd =>
      rw [if_neg hodd] at h
      split
      next hcol => exact ⟨_, rfl⟩
      next hcol => rw [if_neg hcol] at h; simp at h

theorem processYamlLine_ok_of_good (st : YState) (l : Str) (h : yamlLineBad l = false) :
    ∃ st2, processYamlLine st l = .ok st2 := by
  simp only [yamlLineBad] at h
  simp only [processYamlLine]
  split
  next hskip => exact ⟨st, rfl⟩
  next hskip =>
    rw [if_neg hskip] at h
    split
    next hodd => rw [if_pos hodd] at h; simp at h
    next hodd =>
      rw [if_neg hodd] at h
      split
      next hcol => rw [if_pos hcol] at h; simp at h
      next hcol =>
        split
        next => exact ⟨_, rfl⟩
        next => exact ⟨_, rfl⟩

theorem processYamlLines_isOk_false_iff :
    ∀ (lines : List Str) (st : YState),
      (processYamlLines st lines).isOk = false ↔ ∃ l ∈ lines, yamlLineBad l = true
  | [], st => by simp [processYamlLines, Except.isOk, Except.toBool]
  | l :: ls, st => by
    cases hb : yamlLineBad l with
    | true =>
      obtain ⟨e, he⟩ := processYamlLine_error_of_bad st l hb
      simp only [processYamlLines, he]
      simp only [Except.isOk, Except.toBool]
      exact ⟨fun _ => ⟨l, List.mem_cons_self l ls, hb⟩, fun _ => trivial⟩
    | false =>
      obtain ⟨st2, hst⟩ := processYamlLine_ok_of_good st l hb
      simp only [processYamlLines, hst]
      rw [processYamlLines_isOk_false_iff ls st2]
      constructor
      · rintro ⟨x, hx, hbx⟩
        exact ⟨x, List.mem_cons_of_mem _ hx, hbx⟩
      · rintro ⟨x, hx, hbx⟩
        rcases List.mem_cons.mp hx with rfl | hx2
        · rw [hb] at hbx; cases hbx
        · exact ⟨x, hx2, hbx⟩

/-- C6 (amended): the restricted YAML parser fails with a parse error
exactly when some non-blank, non-comment line has indentation that is not
a multiple of two spaces or lacks a `:` separator. A de-indent to an
indentation matching no open mapping level is not an error case: the
content attaches to the closest enclosing open mapping (see the
counterexample). -/
theorem c6_parse_error_iff (text : Str) :
    (loadSimpleYamlMapping text).isOk = false ↔
      ∃ l ∈ pySplitlines text, yamlLineBad l = true := by
  have hmain := processYamlLines_isOk_false_iff (pySplitlines text) initYState
  cases h : processYamlLines initYState (pySplitlines text) with
  | error e =>
    rw [h] at hmain
    simp only [loadSimpleYamlMapping, h]
    simpa [Except.isOk, Except.toBool] using hmain
  | ok st =>
    rw [h] at hmain
    simp only [loadSimpleYamlMapping, h]
    simpa [Except.isOk, Except.toBool] using hmain


/-- C5 counterexample: four concrete refutations of the claim as stated.
(i) With the one-ontology registry, a document whose `@base` is the
registered base plus suffix `x` (unregistered, so flagged by the `@base`
check) and whose `@id` is that same string: the `@id` value — a
registered base followed by a suffix — does appear in
`unauthorized_iris`, although the identifier check itself authorizes it.
(ii) A registered base with an uppercase scheme passes
`validate_iri_format`, yet an `@id` under it whose suffix carries a space
is flagged: the raw id fails the absolute check (whitespace) and, not
being lowercase-`http:`-prefixed, falls into the compact-IRI branch,
whose prefix allow-list does not contain `HTTP`. (iii) A registered base
that does not end in `#` can leave the netloc open: the `@id`
`http://host` ++ `[x` extends the base's netloc with an unbalanced
bracket, so the authorization check raises `ValueError` from `urlparse`
instead of authorizing, and the scan aborts. (iv) An `@id` on which
`validate_iri_format` raises is never reported: on a well-formed JSON
document containing `"@id": "http://[x"`, `validate_no_fabricated_iris`
raises `ValueError("Invalid IPv6 URL")` (only `JSONDecodeError` is
caught) rather than returning a result with `ok = false`. -/
theorem c5_claim_counterexample :
    ((strOf "http://localhost:8080/ontology/a#") ∈ registeredBases cfgOne ∧
     extractIds docCollide = [strOf "http://localhost:8080/ontology/a#" ++ strOf "x"] ∧
     (strOf "http://localhost:8080/ontology/a#" ++ strOf "x")
        ∈ scanUnauthOf (scanPayloadE cfgOne docCollide) ∧
     isAllowedIdentifierE cfgOne (strOf "http://localhost:8080/ontology/a#x")
        (strOf "http://localhost:8080/ontology/a#x") = .ok true) ∧
    (validateIriFormatE (strOf "HTTP://h/a#") = .ok true ∧
     (strOf "HTTP://h/a#") ∈ registeredBases cfgUpper ∧
     extractIds docUpper = [strOf "HTTP://h/a#" ++ strOf "Y Z"] ∧
     (strOf "HTTP://h/a#" ++ strOf "Y Z") ∈ scanUnauthOf (scanPayloadE cfgUpper docUpper)) ∧
    ((strOf "http://host") ∈ registeredBases cfgNoHash ∧
     validateIriFormatE (strOf "http://host") = .ok true ∧
     extractIds docBracketUnder = [strOf "http://host" ++ strOf "[x"] ∧
     expandIdE (strOf "http://host" ++ strOf "[x") none = .error "Invalid IPv6 URL" ∧
     (scanPayloadE cfgNoHash docBracketUnder).isOk = false) ∧
    ((jsonLoads docBracketText).isOk = true ∧
     extractIds docBracket = [strOf "http://[x"] ∧
     validateNoFabricatedIris cfgOne docBracketText = .error "Invalid IPv6 URL") := by
  refine ⟨⟨by decide, by decide, by decide, by decide⟩,
    ⟨by decide, by decide, by decide, by decide⟩,
    ⟨by decide, by decide, by decide, by decide, by decide⟩,
    by decide, by decide, by decide⟩

theorem startsWith_iff : ∀ (pre s : Str), startsWith s pre = true ↔ ∃ t, s = pre ++ t
  | [], s => by
    simp only [startsWith, List.isPrefixOf, List.nil_append]
    exact ⟨fun _ => ⟨s, rfl⟩, fun _ => trivial⟩
  | p :: ps, [] => by
    simp [startsWith, List.isPrefixOf]
  | p :: ps, c :: cs => by
    simp only [startsWith, List.isPrefixOf, Bool.and_eq_true, beq_iff_eq, List.cons_append]
    constructor
    · rintro ⟨rfl, h⟩
      obtain ⟨t, rfl⟩ := ((startsWith_iff ps cs).mp h)
      exact ⟨t, rfl⟩
    · rintro ⟨t, ht⟩
      injection ht with h1 h2
      exact ⟨h1.symm, (startsWith_iff ps cs).mpr ⟨t, h2⟩⟩

theorem takeWhile_stop_append (p : Char → Bool) :
    ∀ (a b : Str), (a.takeWhile p).length < a.length →
      (a ++ b).takeWhile p = a.takeWhile p
  | [], _, h => by simp at h
  | c :: cs, b, h => by
    simp only [List.takeWhile_cons] at h
    simp only [List.cons_append, List.takeWhile_cons]
    cases hc : p c with
    | false => simp [hc]
    | true =>
      simp only [hc, if_true] at h ⊢
      simp only [List.length_cons, Nat.add_lt_add_iff_right] at h
      rw [takeWhile_stop_append p cs b h]

theorem drop_append_of_le : ∀ (n : Nat) (a b : Str), n ≤ a.length →
    (a ++ b).drop n = a.drop n ++ b
  | 0, a, b, _ => by simp
  | n + 1, [], b, h => by simp at h
  | n + 1, c :: cs, b, h => by
    simp only [List.cons_append, List.drop_succ_cons]
    exact drop_append_of_le n cs b (Nat.le_of_succ_le_succ h)

/-- If a string's scheme parses as `http`/`https`, appending any suffix
leaves the scheme unchanged and appends the suffix to the remainder. -/
theorem splitScheme_append (base suffix : Str)
    (h : (splitScheme base).1 = strOf "http" ∨ (splitScheme base).1 = strOf "https") :
    splitScheme (base ++ suffix)
      = ((splitScheme base).1, (splitScheme base).2 ++ suffix) := by
  by_cases hcond : (base.takeWhile (· ≠ ':')).length < base.length ∧
      base.takeWhile (· ≠ ':') ≠ [] ∧ firstIsAsciiAlpha (base.takeWhile (· ≠ ':')) = true ∧
      (base.takeWhile (· ≠ ':')).all schemeChar
  · have htw : (base ++ suffix).takeWhile (· ≠ ':') = base.takeWhile (· ≠ ':') :=
      takeWhile_stop_append _ base suffix hcond.1
    have hBase : splitScheme base
        = (lowerStr (base.takeWhile (· ≠ ':')),
           base.drop ((base.takeWhile (· ≠ ':')).length + 1)) := by
      simp only [splitScheme]
      rw [if_pos hcond]
    have hcond2 : ((base ++ suffix).takeWhile (· ≠ ':')).length < (base ++ suffix).length ∧
        (base ++ suffix).takeWhile (· ≠ ':') ≠ [] ∧
        firstIsAsciiAlpha ((base ++ suffix).takeWhile (· ≠ ':')) = true ∧
        ((base ++ suffix).takeWhile (· ≠ ':')).all schemeChar := by
      rw [htw]
      refine ⟨?_, hcond.2.1, hcond.2.2.1, hcond.2.2.2⟩
      calc (base.takeWhile (· ≠ ':')).length < base.length := hcond.1
        _ ≤ (base ++ suffix).length := by simp
    have hR : splitScheme (base ++ suffix)
        = (lowerStr ((base ++ suffix).takeWhile (· ≠ ':')),
           (base ++ suffix).drop (((base ++ suffix).takeWhile (· ≠ ':')).length + 1)) := by
      simp only [splitScheme]
      rw [if_pos hcond2]
    rw [hR, htw, hBase]
    refine congrArg _ ?_
    exact drop_append_of_le _ base suffix hcond.1
  · exfalso
    have hnil : (splitScheme base).1 = [] := by
      simp only [splitScheme]
      rw [if_neg hcond]
    rw [hnil] at h
    rcases h with h | h <;> exact absurd h (by decide)

theorem netlocOf_cons_slash (r2 : Str) :
    netlocOf ('/' :: '/' :: r2) = r2.takeWhile (fun c => c ≠ '/' ∧ c ≠ '?' ∧ c ≠ '#') := rfl

/-- A list whose last element fails the predicate is never taken whole by
`takeWhile`. -/
theorem takeWhile_lt_of_last_false (p : Char → Bool) :
    ∀ (a : Str) (c : Char), a.getLast? = some c → p c = false →
      (a.takeWhile p).length < a.length
  | [], c, h, _ => Option.noConfusion h
  | [x], c, h, hp => by
    have hx : x = c := by simpa using h
    subst hx
    simp [List.takeWhile_cons, hp]
  | x :: y :: t, c, h, hp => by
    have h2 : (y :: t).getLast? = some c := by
      rw [← List.getLast?_cons_cons]
      exact h
    cases hx : p x with
    | false => simp [List.takeWhile_cons, hx]
    | true =>
      rw [List.takeWhile_cons, if_pos hx]
      simp only [List.length_cons]
      exact Nat.succ_lt_succ (takeWhile_lt_of_last_false p (y :: t) c h2 hp)

/-- Dropping from the front preserves the last element. -/
theorem getLast_drop_ne : ∀ (n : Nat) (s : Str), s.drop n ≠ [] →
    (s.drop n).getLast? = s.getLast?
  | 0, s, _ => rfl
  | n + 1, [], h => absurd rfl h
  | n + 1, c :: cs, h => by
    have hcs : cs.drop n ≠ [] := by simpa using h
    have ih := getLast_drop_ne n cs hcs
    rw [List.drop_succ_cons, ih]
    cases cs with
    | nil => simp at hcs
    | cons y t => exact (List.getLast?_cons_cons).symm

/-- A text with a non-empty netloc starts with `//`. -/
theorem netlocOf_shape : ∀ (rest : Str), netlocOf rest ≠ [] →
    ∃ r2, rest = '/' :: '/' :: r2
  | [], h => by simp [netlocOf] at h
  | [x], h => by simp [netlocOf] at h
  | x :: y :: r2, h => by
    by_cases hxy : x = '/' ∧ y = '/'
    · exact ⟨r2, by rw [hxy.1, hxy.2]⟩
    · exfalso
      apply h
      simp only [netlocOf]
      rw [if_neg ?hne]
      case hne =>
        intro hcon
        simp only [List.take] at hcon
        injection hcon with ha hb
        injection hb with hb _
        exact hxy ⟨ha, hb⟩

/-- When the sliced text ends in `#`, the netloc is closed inside it:
appending anything leaves the netloc unchanged. -/
theorem netlocOf_append_eq (rest suffix : Str) (hne : netlocOf rest ≠ [])
    (hlast : rest.getLast? = some '#') :
    netlocOf (rest ++ suffix) = netlocOf rest := by
  obtain ⟨r2, rfl⟩ := netlocOf_shape rest hne
  have hr2ne : r2 ≠ [] := by
    intro hnil
    subst hnil
    simp [netlocOf] at hne
  have hr2last : r2.getLast? = some '#' := by
    cases r2 with
    | nil => exact absurd rfl hr2ne
    | cons y t =>
      have e1 : ('/' :: '/' :: y :: t).getLast? = (y :: t).getLast? :=
        (List.getLast?_cons_cons).trans (List.getLast?_cons_cons)
      rw [← e1]
      exact hlast
  rw [show ('/' :: '/' :: r2) ++ suffix = '/' :: '/' :: (r2 ++ suffix) from rfl]
  rw [netlocOf_cons_slash, netlocOf_cons_slash]
  exact takeWhile_stop_append _ r2 suffix
    (takeWhile_lt_of_last_false _ r2 '#' hr2last (by decide))

/-- The remainder a scheme split leaves is a tail of the input. -/
theorem splitScheme_snd_drop (u : Str) : ∃ k, (splitScheme u).2 = u.drop k := by
  by_cases hcond : (u.takeWhile (· ≠ ':')).length < u.length ∧
      u.takeWhile (· ≠ ':') ≠ [] ∧ firstIsAsciiAlpha (u.takeWhile (· ≠ ':')) = true ∧
      (u.takeWhile (· ≠ ':')).all schemeChar
  · refine ⟨(u.takeWhile (· ≠ ':')).length + 1, ?_⟩
    simp only [splitScheme]
    rw [if_pos hcond]
  · refine ⟨0, ?_⟩
    simp only [splitScheme]
    rw [if_neg hcond]
    rfl

theorem splitScheme_snd_getLast (u : Str) (hne : (splitScheme u).2 ≠ []) :
    (splitScheme u).2.getLast? = u.getLast? := by
  obtain ⟨k, hk⟩ := splitScheme_snd_drop u
  rw [hk] at hne ⊢
  exact getLast_drop_ne k u hne

theorem filterPred_not_space (c : Char) (h : pyIsSpace c = false) :
    decide (¬(c = '\t' ∨ c = '\r' ∨ c = '\n')) = true := by
  rw [decide_eq_true_eq]
  rintro (rfl | rfl | rfl) <;> exact absurd h (by decide)

/-- A string that begins with `h` and carries no whitespace is untouched
by `urlsplit`'s input normalization: nothing strippable leads, and the
removable bytes are all whitespace. -/
theorem urlsplitPre_eq_self (s : Str) (hh : s.head? = some 'h')
    (hws : ∀ c ∈ s, pyIsSpace c = false) :
    urlsplitPre s = s := by
  cases s with
  | nil => exact Option.noConfusion hh
  | cons c t =>
    have hc : c = 'h' := by simpa using hh
    subst hc
    show ('h' :: t).filter (fun c => ¬(c = '\t' ∨ c = '\r' ∨ c = '\n')) = 'h' :: t
    rw [List.filter_eq_self]
    intro a ha
    exact filterPred_not_space a (hws a ha)

/-- Whitespace anywhere makes `validate_iri_format` return `False` before
`urlparse` can run. -/
theorem validateE_false_of_ws (s : Str) (h : s.any pyIsSpace = true) :
    validateIriFormatE s = .ok false := by
  simp only [validateIriFormatE]
  rw [if_pos (Or.inr h)]

/-- A canonical base — accepted by `validate_iri_format`, starting with
`http://` or `https://`, ending in `#` — extended by any suffix never
makes `validate_iri_format` raise: the final `#` closes the netloc inside
the base, so the extension is checked against the base's own netloc. The
result is `True` when the suffix brings no whitespace and `False` when it
does. -/
theorem validateE_append (base suffix : Str)
    (hbv : validateIriFormatE base = .ok true)
    (hpre : startsWith base (strOf "http://") = true ∨
      startsWith base (strOf "https://") = true)
    (hhash : endsWithHash base = true) :
    validateIriFormatE (base ++ suffix)
      = .ok (!(base ++ suffix).any pyIsSpace) := by
  rcases (validateE_ok_true_iff base).mp hbv with ⟨hwsb, hsch0, hnetE0, hnet0⟩
  have hh : base.head? = some 'h' := by
    rcases hpre with hp | hp <;>
      (obtain ⟨t, ht⟩ := (startsWith_iff _ _).mp hp; rw [ht]; rfl)
  have hpb : urlsplitPre base = base := urlsplitPre_eq_self base hh hwsb
  rw [hpb] at hsch0 hnetE0 hnet0
  cases hws : (base ++ suffix).any pyIsSpace with
  | true =>
    rw [validateE_false_of_ws _ hws]
    rfl
  | false =>
    have hwsall : ∀ c ∈ base ++ suffix, pyIsSpace c = false := by
      intro c hc
      have h1 := List.any_eq_false.mp hws c hc
      revert h1
      cases pyIsSpace c <;> simp
    have hhA : (base ++ suffix).head? = some 'h' := by
      cases base with
      | nil => exact Option.noConfusion hh
      | cons c t => simpa using hh
    have hpA : urlsplitPre (base ++ suffix) = base ++ suffix :=
      urlsplitPre_eq_self _ hhA hwsall
    have hsplit := splitScheme_append base suffix hsch0
    have hrne : (splitScheme base).2 ≠ [] := by
      intro hnil
      rw [hnil] at hnet0
      simp [netlocOf] at hnet0
    have hrlast : (splitScheme base).2.getLast? = some '#' := by
      rw [splitScheme_snd_getLast base hrne]
      exact of_decide_eq_true hhash
    have hneq : netlocOf ((splitScheme base).2 ++ suffix) = netlocOf (splitScheme base).2 :=
      netlocOf_append_eq _ suffix hnet0 hrlast
    apply (validateE_ok_true_iff (base ++ suffix)).mpr
    rw [hpA, hsplit]
    refine ⟨hwsall, hsch0, ?_, ?_⟩
    · show netlocChecksE (netlocOf ((splitScheme base).2 ++ suffix))
        = .ok (netlocOf ((splitScheme base).2 ++ suffix))
      rw [hneq]
      exact hnetE0
    · show netlocOf ((splitScheme base).2 ++ suffix) ≠ []
      rw [hneq]
      exact hnet0

/-- A string accepted by `validate_iri_format` is not a blank node: a
`_:`-prefixed string has no scheme (`_` is not an ASCII letter). -/
theorem validateE_not_blank (r : Str) (h : validateIriFormatE r = .ok true) :
    startsWith r (strOf "_:") = false := by
  cases hs : startsWith r (strOf "_:") with
  | false => rfl
  | true =>
    exfalso
    obtain ⟨t, rfl⟩ := (startsWith_iff (strOf "_:") r).mp hs
    rcases (validateE_ok_true_iff _).mp h with ⟨-, hsch, -, -⟩
    have hpre : urlsplitPre (strOf "_:" ++ t)
        = '_' :: ':' :: t.filter (fun c => ¬(c = '\t' ∨ c = '\r' ∨ c = '\n')) := rfl
    have hss : (splitScheme (urlsplitPre (strOf "_:" ++ t))).1 = [] := by
      rw [hpre]
      simp only [splitScheme]
      rw [if_neg ?hno]
      case hno =>
        rintro ⟨-, -, halpha, -⟩
        have h1 : firstIsAsciiAlpha ['_'] = true := halpha
        exact absurd h1 (by decide)
    rw [hss] at hsch
    rcases hsch with hcon | hcon <;> exact absurd hcon (by decide)

/-- Part one of the amended fabrication-soundness claim: an identifier
that extends a registered base of the canonical shape passes the
authorization check without raising, whatever the document's `@base`
is. -/
theorem allowed_of_registered_base (cfg : YFields) (b : Option Str) (base suffix : Str)
    (hmem : base ∈ registeredBases cfg)
    (hpre : startsWith base (strOf "http://") = true ∨
      startsWith base (strOf "https://") = true)
    (hbv : validateIriFormatE base = .ok true)
    (hhash : endsWithHash base = true) :
    ∃ ex, expandIdE (base ++ suffix) b = .ok ex ∧
      isAllowedIdentifierE cfg (base ++ suffix) ex = .ok true := by
  have hblank : startsWith (base ++ suffix) (strOf "_:") = false := by
    cases hs : startsWith (base ++ suffix) (strOf "_:") with
    | false => rfl
    | true =>
      exfalso
      obtain ⟨t, ht⟩ := (startsWith_iff _ _).mp hs
      rcases hpre with hp | hp
      · obtain ⟨u, hu⟩ := (startsWith_iff _ _).mp hp
        rw [hu] at ht
        have h1 : ((strOf "http://" ++ u) ++ suffix).head? = some 'h' := rfl
        have h2 : (strOf "_:" ++ t).head? = some '_' := rfl
        rw [ht, h2] at h1
        simp at h1
      · obtain ⟨u, hu⟩ := (startsWith_iff _ _).mp hp
        rw [hu] at ht
        have h1 : ((strOf "https://" ++ u) ++ suffix).head? = some 'h' := rfl
        have h2 : (strOf "_:" ++ t).head? = some '_' := rfl
        rw [ht, h2] at h1
        simp at h1
  have hhttp : startsWith (base ++ suffix) (strOf "http:") = true ∨
      startsWith (base ++ suffix) (strOf "https:") = true := by
    rcases hpre with hp | hp
    · obtain ⟨u, hu⟩ := (startsWith_iff _ _).mp hp
      left
      apply (startsWith_iff _ _).mpr
      refine ⟨strOf "//" ++ u ++ suffix, ?_⟩
      rw [hu, show strOf "http://" = strOf "http:" ++ strOf "//" from rfl]
      simp [List.append_assoc]
    · obtain ⟨u, hu⟩ := (startsWith_iff _ _).mp hp
      right
      apply (startsWith_iff _ _).mpr
      refine ⟨strOf "//" ++ u ++ suffix, ?_⟩
      rw [hu, show strOf "https://" = strOf "https:" ++ strOf "//" from rfl]
      simp [List.append_assoc]
  have hv := validateE_append base suffix hbv hpre hhash
  cases hws : (base ++ suffix).any pyIsSpace with
  | false =>
    rw [hws] at hv
    simp only [Bool.not_false] at hv
    have habs : isAllowedAbsoluteIri cfg (base ++ suffix) = true := by
      simp only [isAllowedAbsoluteIri, Bool.or_eq_true, List.any_eq_true]
      exact Or.inl ⟨base, hmem, (startsWith_iff _ _).mpr ⟨suffix, rfl⟩⟩
    refine ⟨base ++ suffix, ?_, ?_⟩
    · simp only [expandIdE]
      rw [if_neg (by simp [hblank])]
      simp only [hv]
    · simp only [isAllowedIdentifierE]
      rw [if_neg (by simp [hblank])]
      simp only [hv, habs]
  | true =>
    rw [hws] at hv
    simp only [Bool.not_true] at hv
    have hcomp : ¬((base ++ suffix).contains ':' = true ∧
        ¬ startsWith (base ++ suffix) (strOf "http:") = true ∧
        ¬ startsWith (base ++ suffix) (strOf "https:") = true) := by
      rintro ⟨-, h1, h2⟩
      rcases hhttp with h | h
      exacts [h1 h, h2 h]
    cases b with
    | none =>
      refine ⟨base ++ suffix, ?_, ?_⟩
      · simp only [expandIdE]
        rw [if_neg (by simp [hblank])]
        simp only [hv]
        rw [if_neg hcomp]
      · simp only [isAllowedIdentifierE]
        rw [if_neg (by simp [hblank])]
        simp only [hv]
        rw [if_neg hcomp]
    | some bb =>
      have hwse : (bb ++ (base ++ suffix)).any pyIsSpace = true := by
        rw [List.any_append, hws]
        simp
      have hvf2 : validateIriFormatE (bb ++ (base ++ suffix)) = .ok false :=
        validateE_false_of_ws _ hwse
      refine ⟨bb ++ (base ++ suffix), ?_, ?_⟩
      · simp only [expandIdE]
        rw [if_neg (by simp [hblank])]
        simp only [hv]
        rw [if_neg hcomp]
      · simp only [isAllowedIdentifierE]
        rw [if_neg (by simp [hblank])]
        simp only [hvf2]
        rw [if_neg hcomp]

theorem mem_insertStrSorted (x : Str) : ∀ (l : List Str) (y : Str),
    y ∈ insertStrSorted x l ↔ y = x ∨ y ∈ l
  | [], y => by simp [insertStrSorted]
  | z :: zs, y => by
    simp only [insertStrSorted]
    split
    · rw [List.mem_cons, mem_insertStrSorted x zs y, List.mem_cons]
      tauto
    · simp only [List.mem_cons]

theorem mem_foldl_insertStr : ∀ (l acc : List Str) (y : Str),
    y ∈ l.foldl (fun a x => insertStrSorted x a) acc ↔ y ∈ acc ∨ y ∈ l
  | [], acc, y => by simp
  | x :: xs, acc, y => by
    simp only [List.foldl_cons]
    rw [mem_foldl_insertStr xs (insertStrSorted x acc) y, mem_insertStrSorted x acc y,
      List.mem_cons]
    tauto

theorem mem_dedupStrsAux : ∀ (l seen : List Str) (y : Str),
    y ∈ dedupStrsAux l seen ↔ (y ∈ l ∧ y ∉ seen)
  | [], seen, y => by simp [dedupStrsAux]
  | x :: xs, seen, y => by
    simp only [dedupStrsAux]
    split
    next hx =>
      have hxs : x ∈ seen := by simpa using hx
      rw [mem_dedupStrsAux xs seen y, List.mem_cons]
      constructor
      · rintro ⟨h1, h2⟩
        exact ⟨Or.inr h1, h2⟩
      · rintro ⟨h1 | h1, h2⟩
        · subst h1
          exact absurd hxs h2
        · exact ⟨h1, h2⟩
    next hx =>
      have hxs : x ∉ seen := by
        intro hcon
        exact hx (by simpa using hcon)
      rw [List.mem_cons, mem_dedupStrsAux xs (x :: seen) y]
      constructor
      · rintro (rfl | ⟨h1, h2⟩)
        · exact ⟨List.mem_cons_self _ _, hxs⟩
        · exact ⟨List.mem_cons_of_mem _ h1, fun hc => h2 (List.mem_cons_of_mem _ hc)⟩
      · rintro ⟨h1, h2⟩
        rcases List.mem_cons.mp h1 with rfl | h1b
        · exact Or.inl rfl
        · by_cases hyx : y = x
          · exact Or.inl hyx
          · refine Or.inr ⟨h1b, fun hc => ?_⟩
            rcases List.mem_cons.mp hc with hh | hh
            · exact hyx hh
            · exact h2 hh

theorem mem_sortedDedup (l : List Str) (y : Str) : y ∈ sortedDedup l ↔ y ∈ l := by
  unfold sortedDedup sortStrs
  rw [mem_foldl_insertStr (dedupStrsAux l []) [] y, mem_dedupStrsAux l [] y]
  simp

theorem isEmpty_append_false (a b : List Str) (h : b ≠ []) : (a ++ b).isEmpty = false := by
  cases a with
  | nil =>
    cases b with
    | nil => exact absurd rfl h
    | cons x xs => rfl
  | cons x xs => rfl

/-- When the `@id` loop returns and one of the ids it visited was
expanded to `ex` and rejected by the authorization check, `ex` is among
the collected unauthorized ids and the error list is non-empty. -/
theorem scanIdsE_flags (cfg : YFields) (b : Option Str) (r ex : Str)
    (hex : expandIdE r b = .ok ex)
    (hall : isAllowedIdentifierE cfg r ex = .ok false) :
    ∀ (ids : List Str) (res : List Str × List Str × List Str),
      scanIdsE cfg b ids = .ok res → r ∈ ids → ex ∈ res.2.1 ∧ res.2.2 ≠ []
  | [], _, _, hmem => absurd hmem (List.not_mem_nil r)
  | i :: is, res, hres, hmem => by
    cases hexi : expandIdE i b with
    | error e =>
      simp [scanIdsE, hexi] at hres
    | ok exi =>
      cases halli : isAllowedIdentifierE cfg i exi with
      | error e =>
        simp [scanIdsE, hexi, halli] at hres
      | ok ai =>
        cases hrec : scanIdsE cfg b is with
        | error e =>
          simp [scanIdsE, hexi, halli, hrec] at hres
        | ok res2 =>
          simp only [scanIdsE, hexi, halli, hrec] at hres
          have hr : res = (exi :: res2.1,
              (if ai = true then res2.2.1 else exi :: res2.2.1),
              (if ai = true then res2.2.2
               else (strOf "Unauthorized @id IRI: " ++ i ++ strOf " (expanded: "
                 ++ exi ++ strOf ")") :: res2.2.2)) :=
            ((Except.ok.injEq _ _).mp hres).symm
          rcases List.mem_cons.mp hmem with rfl | hmem2
          · have hexeq : exi = ex := by
              rw [hexi] at hex
              exact (Except.ok.injEq _ _).mp hex
            subst hexeq
            have haieq : ai = false := by
              rw [halli] at hall
              exact (Except.ok.injEq _ _).mp hall
            subst haieq
            rw [hr]
            constructor
            · show exi ∈ exi :: res2.2.1
              exact List.mem_cons_self _ _
            · show (strOf "Unauthorized @id IRI: " ++ r ++ strOf " (expanded: "
                 ++ exi ++ strOf ")") :: res2.2.2 ≠ []
              exact List.cons_ne_nil _ _
          · have ih := scanIdsE_flags cfg b r ex hex hall is res2 hrec hmem2
            rw [hr]
            cases ai with
            | true =>
              constructor
              · show ex ∈ res2.2.1
                exact ih.1
              · show res2.2.2 ≠ []
                exact ih.2
            | false =>
              constructor
              · show ex ∈ exi :: res2.2.1
                exact List.mem_cons_of_mem _ ih.1
              · show (strOf "Unauthorized @id IRI: " ++ i ++ strOf " (expanded: "
                   ++ exi ++ strOf ")") :: res2.2.2 ≠ []
                exact List.cons_ne_nil _ _

/-- Part two of the amended fabrication-soundness claim: whenever the
scan returns a result, an absolute `@id` (accepted by
`validate_iri_format`) whose IRI extends neither a registered base nor an
allow-listed external prefix is reported. -/
theorem flagged_of_unrelated (cfg : YFields) (payload : Json) (rawId : Str)
    (hmem : rawId ∈ extractIds payload)
    (hval : validateIriFormatE rawId = .ok true)
    (hbases : ∀ base ∈ registeredBases cfg, startsWith rawId base = false)
    (hext : ∀ pre ∈ allowedExternalPrefixes, startsWith rawId pre = false)
    (hscan : (scanPayloadE cfg payload).isOk = true) :
    rawId ∈ scanUnauthOf (scanPayloadE cfg payload) ∧
      scanSaysOk (scanPayloadE cfg payload) = false := by
  have hblank := validateE_not_blank rawId hval
  have hex : expandIdE rawId (extractBaseIri payload) = .ok rawId := by
    simp only [expandIdE]
    rw [if_neg (by simp [hblank])]
    simp only [hval]
  have habs : isAllowedAbsoluteIri cfg rawId = false := by
    simp only [isAllowedAbsoluteIri]
    rw [Bool.or_eq_false_iff]
    constructor
    · rw [List.any_eq_false]
      intro x hx
      simp [hbases x hx]
    · rw [List.any_eq_false]
      intro x hx
      simp [hext x hx]
  have hall : isAllowedIdentifierE cfg rawId rawId = .ok false := by
    simp only [isAllowedIdentifierE]
    rw [if_neg (by simp [hblank])]
    simp only [hval, habs]
  cases hids : scanIdsE cfg (extractBaseIri payload) (extractIds payload) with
  | error e =>
    exfalso
    have hsp : scanPayloadE cfg payload = .error e := by
      simp only [scanPayloadE, hids]
    rw [hsp] at hscan
    simp [Except.isOk, Except.toBool] at hscan
  | ok trip =>
    have hflag := scanIdsE_flags cfg (extractBaseIri payload) rawId rawId hex hall
      (extractIds payload) trip hids hmem
    constructor
    · simp only [scanUnauthOf, scanPayloadE, hids]
      exact (mem_sortedDedup _ _).mpr (List.mem_append_right _ hflag.1)
    · simp only [scanSaysOk, scanPayloadE, hids]
      exact isEmpty_append_false _ _ hflag.2

/-- C5 (amended): fabrication detection is sound in the following form.
Every `@id` equal to a registered base plus any suffix — the base being
of the canonical registry shape: it begins with `http://` or `https://`,
passes `validate_iri_format`, and ends with `#` — passes the identifier
authorization check without raising, for any document `@base`; such a
value can reach `unauthorized_iris` only through the separate `@base`
check (see the counterexample). And whenever the scan returns a result
(no identifier makes `validate_iri_format` raise), every `@id` that is an
absolute IRI extending neither a registered base nor an entry of the
fixed external allow-list appears in `unauthorized_iris`, with
`ok = false`. -/
theorem c5_scan_soundness :
    (∀ (cfg : YFields) (b : Option Str) (base suffix : Str),
      base ∈ registeredBases cfg →
      (startsWith base (strOf "http://") = true ∨
        startsWith base (strOf "https://") = true) →
      validateIriFormatE base = .ok true →
      endsWithHash base = true →
      ∃ ex, expandIdE (base ++ suffix) b = .ok ex ∧
        isAllowedIdentifierE cfg (base ++ suffix) ex = .ok true) ∧
    (∀ (cfg : YFields) (payload : Json) (rawId : Str),
      rawId ∈ extractIds payload →
      validateIriFormatE rawId = .ok true →
      (∀ base ∈ registeredBases cfg, startsWith rawId base = false) →
      (∀ pre ∈ allowedExternalPrefixes, startsWith rawId pre = false) →
      (scanPayloadE cfg payload).isOk = true →
      rawId ∈ scanUnauthOf (scanPayloadE cfg payload) ∧
        scanSaysOk (scanPayloadE cfg payload) = false) :=
  ⟨fun cfg b base suffix hmem hpre hbv hhash =>
    allowed_of_registered_base cfg b base suffix hmem hpre hbv hhash,
   fun cfg payload rawId hmem hval hbases hext hscan =>
    flagged_of_unrelated cfg payload rawId hmem hval hbases hext hscan⟩

theorem c5_scan_soundness_witness :
    (∃ ex, expandIdE (strOf "http://localhost:8080/ontology/a#" ++ strOf "Y") none = .ok ex ∧
      isAllowedIdentifierE cfgOne (strOf "http://localhost:8080/ontology/a#" ++ strOf "Y") ex
        = .ok true) ∧
    ((strOf "http://evil.example/ontology#X") ∈ scanUnauthOf (scanPayloadE cfgOne docEvil) ∧
      scanSaysOk (scanPayloadE cfgOne docEvil) = false) :=
  ⟨c5_scan_soundness.1 cfgOne none (strOf "http://localhost:8080/ontology/a#") (strOf "Y")
    (by decide) (Or.inl (by decide)) (by decide) (by decide),
   c5_scan_soundness.2 cfgOne docEvil (strOf "http://evil.example/ontology#X")
    (by decide) (by decide) (by decide) (by decide) (by decide)⟩
